import Mathlib

/-!
# Verification of the simple-rdbms core

Shallow embedding of the repository's core modules:
`src/types.py` (value conversion), `src/parser.py` (value / WHERE parsing),
`src/table.py` (table storage, indexes, insert/select/update/delete) and
`src/database.py` (executor, inner join).

Modelling conventions:
* Python `dict`s are association lists preserving insertion order, with
  overwrite-in-place semantics (`alSet`) and first-match lookup (`alFind?`);
  row dictionaries use plain string key equality, index dictionaries use the
  Python value equality `pyEq` (Python compares `int` and `float` keys
  numerically).
* Python floats are modelled as exact decimal rationals plus signed infinity
  (`PyFloat`).  Double rounding is not modelled: no claim in this development
  depends on binary rounding, only on which literals parse and on equality of
  values originating from literals and integer conversion.  IEEE NaN (whose
  equality is irreflexive) is outside the value model, so `float("nan")` is
  not modelled; no claim involves NaN.
* Python `str.strip()` is modelled by `trimList` (ASCII whitespace);
  underscore digit separators and non-ASCII digits accepted by Python's
  `int()` / `float()` are not modelled.
* Places where the Python code could raise `KeyError` / `IndexError` are
  totalised with a default; every such spot is marked with a comment and is
  unreachable in the situations the theorems quantify over.
-/

/-- A Python float value: an exact decimal rational or a signed infinity.
(`float("nan")` is not modelled, see the header comment.) -/
inductive PyFloat where
  | finite : Rat → PyFloat
  | inf : Bool → PyFloat
deriving DecidableEq

/-- A stored scalar value: Python `int`, `float` or `str`
(spec section 3 "Value"). -/
inductive Value where
  | int : Int → Value
  | float : PyFloat → Value
  | text : String → Value
deriving DecidableEq

/-- Python `==` on values: `int`/`float` compare numerically across kinds
(`1 == 1.0` is `True` in Python); strings compare structurally; a number never
equals a string. -/
def pyEq : Value → Value → Bool
  | .int a, .int b => a = b
  | .int a, .float (.finite q) => (a : Rat) = q
  | .int _, .float (.inf _) => false
  | .float (.finite q), .int b => q = (b : Rat)
  | .float (.inf _), .int _ => false
  | .float (.finite q), .float (.finite r) => q = r
  | .float (.inf s), .float (.inf t) => s = t
  | .float (.finite _), .float (.inf _) => false
  | .float (.inf _), .float (.finite _) => false
  | .text s, .text t => s = t
  | .text _, _ => false
  | _, .text _ => false

/-- Canonical key of a value under Python equality: `pyEq a b` holds exactly
when the keys coincide (an integer and a numerically equal finite float share
a key).  Used only to derive that `pyEq` is an equivalence. -/
inductive PyKey where
  | num : Rat → PyKey
  | pinf : Bool → PyKey
  | str : String → PyKey
deriving DecidableEq

/-- The canonical key of a value. -/
def pyKey : Value → PyKey
  | .int n => .num (n : Rat)
  | .float (.finite q) => .num q
  | .float (.inf b) => .pinf b
  | .text s => .str s

/-- String key equality, used for Python dicts keyed by strings. -/
def strEq (a b : String) : Bool := a == b

/-- Python dict lookup `d.get(k)`: first entry whose key compares equal. -/
def alFind? (beq : κ → κ → Bool) : List (κ × α) → κ → Option α
  | [], _ => none
  | (k, v) :: es, a => if beq k a then some v else alFind? beq es a

/-- Python dict assignment `d[k] = v`: overwrite the entry with an equal key
(keeping the original key object, as Python does), else append. -/
def alSet (beq : κ → κ → Bool) : List (κ × α) → κ → α → List (κ × α)
  | [], a, b => [(a, b)]
  | (k, v) :: es, a, b =>
    if beq k a then (k, b) :: es else (k, v) :: alSet beq es a b

/-- Python `del d[k]`: remove the entry with an equal key (callers in the
source guard with `k in d`, so the no-match case does not arise there). -/
def alErase (beq : κ → κ → Bool) : List (κ × α) → κ → List (κ × α)
  | [], _ => []
  | (k, v) :: es, a => if beq k a then es else (k, v) :: alErase beq es a

/-- Python `k in d`. -/
def alContains (beq : κ → κ → Bool) (l : List (κ × α)) (a : κ) : Bool :=
  (alFind? beq l a).isSome

/-- A table row: the Python dict from column name to value built by
`Table.insert`. -/
abbrev Row := List (String × Value)

/-- `row.get(c)` — `None` when the column is absent. -/
def rowFind? (r : Row) (c : String) : Option Value := alFind? strEq r c

/-- `row[c]` — Python raises `KeyError` when the column is absent; the
default is unreachable in every situation the theorems below quantify over
(rows built by `insert` contain every declared column). -/
def rowGetD (r : Row) (c : String) : Value := (rowFind? r c).getD (.text "")

/-- A hash index `value -> row position` (`primary_index`, `unique_indexes`
entries); a Python dict keyed by values, hence `pyEq` key comparison. -/
abbrev Index := List (Value × Nat)

/-! ## String helpers

Lean core's `String.trim`, `String.toUpper`, `String.splitOn` etc. are
implemented on byte positions and do not reduce definitionally, so the
embedding uses character-list equivalents (Python semantics is per character
anyway). -/

/-- Python `str.strip()` on a character list (ASCII whitespace; Python strips
a few more Unicode space characters, which no claim exercises). -/
def trimList (cs : List Char) : List Char :=
  ((cs.dropWhile Char.isWhitespace).reverse.dropWhile Char.isWhitespace).reverse

/-- Python `str.strip()`. -/
def strTrim (s : String) : String := String.mk (trimList s.toList)

/-- Python `str.upper()` (ASCII). -/
def strUpper (s : String) : String := String.mk (s.toList.map Char.toUpper)

/-- Split a character list at every occurrence of a separator (like Python
`str.split(sep)`: n separators yield n+1 groups). -/
def splitOnChar (sep : Char) : List Char → List (List Char)
  | [] => [[]]
  | c :: rest =>
    match splitOnChar sep rest with
    | [] => [[]]
    | g :: gs => if c = sep then [] :: g :: gs else (c :: g) :: gs

/-! ## Numeric literal parsing (`int(...)` / `float(...)` on strings) -/

/-- Numeric value of a decimal digit string (helper). -/
def digitsToNat (cs : List Char) : Nat :=
  cs.foldl (fun a c => 10 * a + (c.toNat - 48)) 0

/-- A non-empty all-digit string, as a natural number. -/
def natDigits? (cs : List Char) : Option Nat :=
  if cs ≠ [] ∧ cs.all Char.isDigit then some (digitsToNat cs) else none

/-- Optional sign followed by a non-empty digit string. -/
def signedDigits? : List Char → Option Int
  | '+' :: ds => (natDigits? ds).map Int.ofNat
  | '-' :: ds => (natDigits? ds).map (fun n => -(n : Int))
  | ds => (natDigits? ds).map Int.ofNat

/-- Python `int(s)` on a string: surrounding whitespace, an optional sign and
decimal digits.  (Underscore separators / non-ASCII digits not modelled.) -/
def pyIntOfString? (s : String) : Option Int :=
  signedDigits? (trimList s.toList)

/-- Mantissa of a float literal: `digits`, `digits.digits`, `digits.` or
`.digits`, as an exact rational. -/
def parseMant? (m : List Char) : Option Rat :=
  match splitOnChar '.' m with
  | [i] => (natDigits? i).map (fun n => (n : Rat))
  | [i, f] =>
    if (i ++ f) ≠ [] ∧ i.all Char.isDigit ∧ f.all Char.isDigit then
      some ((digitsToNat (i ++ f) : Rat) / (10 : Rat) ^ f.length)
    else none
  | _ => none

/-- Exponent part of a float literal (no inner whitespace allowed). -/
def parseExp? (ex : List Char) : Option Int := signedDigits? ex

/-- Python `float(s)` on a string: optional sign, then `inf`/`infinity`
(case-insensitive) or a decimal mantissa with optional exponent.  The value is
the exact decimal rational (see header comment on rounding and NaN). -/
def pyFloatOfString? (s : String) : Option PyFloat :=
  let cs := (trimList s.toList).map Char.toLower
  let neg := cs.head? = some '-'
  let body := match cs with
    | '-' :: r => r
    | '+' :: r => r
    | r => r
  if body = "inf".toList ∨ body = "infinity".toList then some (.inf neg)
  else
    match splitOnChar 'e' body with
    | [m] => (parseMant? m).map (fun q => .finite (if neg then -q else q))
    | [m, ex] =>
      match parseMant? m, parseExp? ex with
      | some q, some e =>
        some (.finite (if neg then -(q * (10 : Rat) ^ e) else q * (10 : Rat) ^ e))
      | _, _ => none
    | _ => none

/-- Truncation toward zero: Python `int(f)` on a finite float. -/
def ratTrunc (q : Rat) : Int := if q < 0 then -((-q).floor) else q.floor

/-- Best-effort decimal rendering of a modelled float, used only inside
result/message strings (Python renders doubles with the shortest round-trip
representation; no claim in this development evaluates such a message). -/
def pyFloatStr : PyFloat → String
  | .inf true => "-inf"
  | .inf false => "inf"
  | .finite q => if q.den = 1 then toString q.num ++ ".0" else toString q

/-- Python `str(v)` for a stored value. -/
def pyStr : Value → String
  | .int n => toString n
  | .text s => s
  | .float f => pyFloatStr f

/-! ## `src/types.py` -/

/-- `convert_value(value, type_name)` from `src/types.py`.  Raises
`ValueError` (modelled as `.error`) when a coercion fails; unknown type names
pass the value through unchanged.  (Python raises an uncaught `OverflowError`
for `int(float("inf"))`; here it is a failure like the others — both happen
before any table mutation.  The original message has a trailing
`": {str(e)}"` with the inner Python exception text, which is not modelled.) -/
def convert_value (v : Value) (ty : String) : Except String Value :=
  let tyU := strUpper ty
  let errMsg := "Cannot convert '" ++ pyStr v ++ "' to " ++ tyU
  if tyU = "INT" then
    match v with
    | .int n => .ok (.int n)
    | .float (.finite q) => .ok (.int (ratTrunc q))
    | .float (.inf _) => .error errMsg
    | .text s =>
      match pyIntOfString? s with
      | some n => .ok (.int n)
      | none => .error errMsg
  else if tyU = "TEXT" ∨ tyU = "VARCHAR" ∨ tyU = "CHAR" ∨ tyU = "STRING" then
    .ok (.text (pyStr v))
  else if tyU = "FLOAT" ∨ tyU = "REAL" ∨ tyU = "DOUBLE" then
    match v with
    | .int n => .ok (.float (.finite (n : Rat)))
    | .float f => .ok (.float f)
    | .text s =>
      match pyFloatOfString? s with
      | some f => .ok (.float f)
      | none => .error errMsg
  else .ok v

/-! ## `src/parser.py`: value and WHERE parsing -/

/-- The double-quote character. -/
def dQuote : Char := Char.ofNat 34

/-- The single-quote character. -/
def sQuote : Char := Char.ofNat 39

/-- `QueryParser._parse_single_value`: strip; if wrapped in a matching pair of
quotes, the inner text verbatim; else try `int`, then `float`, else the text
itself. -/
def parse_single_value (s : String) : Value :=
  let cs := trimList s.toList
  let v := String.mk cs
  if cs ≠ [] ∧ ((cs.head? = some dQuote ∧ cs.getLast? = some dQuote) ∨
      (cs.head? = some sQuote ∧ cs.getLast? = some sQuote)) then
    .text (String.mk (cs.drop 1).dropLast)
  else
    match pyIntOfString? v with
    | some n => .int n
    | none =>
      match pyFloatOfString? v with
      | some f => .float f
      | none => .text v

/-- Scanner state of `QueryParser._parse_values`: emitted values, the
characters of `current`, the `in_quotes` flag and `quote_char`. -/
structure ScanSt where
  values : List Value
  current : List Char
  inQuotes : Bool
  quoteChar : Option Char
deriving DecidableEq

/-- One character step of the `_parse_values` scanner.  Note that quote
characters toggle the state but are never appended to `current`. -/
def scanStep (st : ScanSt) (c : Char) : ScanSt :=
  if (c = dQuote ∨ c = sQuote) ∧ st.inQuotes = false then
    { st with inQuotes := true, quoteChar := some c }
  else if st.quoteChar = some c ∧ st.inQuotes = true then
    { st with inQuotes := false, quoteChar := none }
  else if c = ',' ∧ st.inQuotes = false then
    { st with
        values := st.values ++ [parse_single_value (String.mk (trimList st.current))]
        current := [] }
  else { st with current := st.current ++ [c] }

/-- Run the `_parse_values` scanner over a whole string. -/
def scanRun (s : String) : ScanSt :=
  s.toList.foldl scanStep ⟨[], [], false, none⟩

/-- `QueryParser._parse_values`: scan, then append the final segment only
when its stripped text is non-empty. -/
def parse_values (s : String) : List Value :=
  let st := scanRun s
  let tail := String.mk (trimList st.current)
  st.values ++ (if tail ≠ "" then [parse_single_value tail] else [])

/-- Number of comma-separated segments of a value list (the scanner emits
exactly one value per unquoted comma, so the segment count is that plus one
for the final segment). -/
def numSegments (s : String) : Nat := (scanRun s).values.length + 1

/-- A parsed WHERE predicate: `{'column': ..., 'value': ...}`. -/
structure WhereClause where
  column : String
  value : Value
deriving DecidableEq

/-- A regex word character (`\w`, ASCII range; non-ASCII word characters are
not modelled). -/
def isWordChar (c : Char) : Bool := c.isAlphanum || c = '_'

/-- `QueryParser._parse_where`: the regex `(\w+)\s*=\s*(.+)` against the
stripped clause, then single-value parsing of the stripped right-hand side.
The regex needs no backtracking: after the maximal word-character prefix the
next character can only begin `\s*=` if it is whitespace or `=`.  (`.` not
matching newline is irrelevant for the single-line clauses modelled here.) -/
def parse_where (s : String) : Option WhereClause :=
  let cs := trimList s.toList
  let w := cs.takeWhile isWordChar
  let rest := (cs.dropWhile isWordChar).dropWhile Char.isWhitespace
  if w = [] then none
  else
    match rest with
    | '=' :: rhs =>
      if rhs = [] then none
      else some ⟨String.mk w, parse_single_value (String.mk (trimList rhs))⟩
    | _ => none

/-! ## `src/table.py` -/

/-- The uniform result dictionary (`success`, `message`, and for the SELECT
family `columns` and `data`; a data cell is `none` where Python's `row.get`
produced `None`).  Results without `columns`/`data` keys are modelled with the
empty defaults. -/
structure QueryResult where
  success : Bool
  message : String
  columns : List String := []
  data : List (List (Option Value)) := []
deriving DecidableEq

/-- A failure result. -/
def failR (msg : String) : QueryResult := { success := false, message := msg }

/-- A plain success result. -/
def okR (msg : String) : QueryResult := { success := true, message := msg }

/-- The `Table` object: declared columns, derived `column_names` /
`column_types` dicts, constraint columns, row storage and the indexes. -/
structure Table where
  name : String
  columns : List (String × String)
  column_names : List String
  column_types : List (String × String)
  primary_key : String
  unique_columns : List String
  rows : List Row
  primary_index : Index
  unique_indexes : List (String × Index)
deriving DecidableEq

/-- `Table.__init__`: derived fields computed from the column list
(`column_types` is a dict comprehension, so a duplicated column name keeps the
last declared type); `unique_columns` is a Python set, modelled as the
deduplicated list (set iteration order is unspecified in Python; only
membership matters to the claims).  Storage and all indexes start empty. -/
def mkTable (name : String) (columns : List (String × String))
    (primary_key : String) (unique_columns : List String) : Table :=
  let uniq := unique_columns.dedup
  { name, columns,
    column_names := columns.map Prod.fst,
    column_types := columns.foldl (fun d c => alSet strEq d c.1 c.2) [],
    primary_key,
    unique_columns := uniq,
    rows := [],
    primary_index := [],
    unique_indexes := uniq.map (fun c => (c, ([] : Index))) }

/-- The row-building loop of `Table.insert`: convert each positional value
with its column's declared type, failing on the first conversion error.  The
value list is in lockstep with the column list (the caller has checked the
lengths; the values-exhausted branch is unreachable there). -/
def build_row : List (String × String) → List Value → Row → Except String Row
  | [], _, acc => .ok acc
  | (c, ty) :: cols, v :: vs, acc =>
    match convert_value v ty with
    | .ok cv => build_row cols vs (alSet strEq acc c cv)
    | .error e => .error ("Type error for column '" ++ c ++ "': " ++ e)
  | (c, _) :: _, [], _ => .error ("Type error for column '" ++ c ++ "': missing value")

/-- The index-update loop of `Table.insert`'s success path: for each unique
column, map the new row's value in that column to the new row position.
(A missing per-column index dict would be a Python `KeyError`; `mkTable`
creates one per unique column, so the `none` branch is unreachable.) -/
def insert_unique_update (uniqs : List String) (uis : List (String × Index))
    (row : Row) (n : Nat) : List (String × Index) :=
  uniqs.foldl (fun uis col =>
    match alFind? strEq uis col with
    | some m => alSet strEq uis col (alSet pyEq m (rowGetD row col) n)
    | none => uis) uis

/-- The unique-constraint check loop of `Table.insert`: the first unique
column whose value for this row is already in its index, with that value.
(A unique column absent from `unique_indexes` would be a Python `KeyError`;
`mkTable` creates an index for every unique column, so the `none` branch is
unreachable.) -/
def find_unique_violation (t : Table) (row : Row) : Option (String × Value) :=
  t.unique_columns.findSome? (fun col =>
    match alFind? strEq t.unique_indexes col with
    | some m =>
      if alContains pyEq m (rowGetD row col) then some (col, rowGetD row col)
      else none
    | none => none)

/-- `Table.insert`: length check, row building with type conversion, primary
key check, unique checks, then append the row and extend every index.
Returns the table state after the call together with the result. -/
def Table.insert (t : Table) (values : List Value) : Table × QueryResult :=
  if values.length ≠ t.columns.length then
    (t, failR ("Expected " ++ toString t.columns.length ++ " values, got " ++
      toString values.length))
  else
    match build_row t.columns values [] with
    | .error msg => (t, failR msg)
    | .ok row =>
      let pkVal := rowGetD row t.primary_key
      if alContains pyEq t.primary_index pkVal then
        (t, failR ("Primary key violation: '" ++ pyStr pkVal ++ "' already exists"))
      else
        match find_unique_violation t row with
        | some (col, v) =>
          (t, failR ("Unique constraint violation: '" ++ col ++ "' = '" ++
            pyStr v ++ "' already exists"))
        | none =>
          let n := t.rows.length
          ({ t with
              rows := t.rows ++ [row],
              primary_index := alSet pyEq t.primary_index pkVal n,
              unique_indexes :=
                insert_unique_update t.unique_columns t.unique_indexes row n },
            okR ("Inserted 1 row into '" ++ t.name ++ "'"))

/-- Does a row match a WHERE predicate?  `row.get(col) == value`; a missing
column gives Python `None`, which equals no value. -/
def rowMatches (r : Row) (w : WhereClause) : Bool :=
  match rowFind? r w.column with
  | some v => pyEq v w.value
  | none => false

/-- `Table.select`: default the column list, filter by the WHERE predicate
(primary-key lookups go through `primary_index`), project each row to the
requested columns (`row.get`, so unknown columns yield `none`). -/
def Table.select (t : Table) (columns : List String) (w : Option WhereClause) :
    QueryResult :=
  let cols := if columns = [] ∨ columns = ["*"] then t.column_names else columns
  let filtered : List Row :=
    match w with
    | some wc =>
      if wc.column = t.primary_key then
        match alFind? pyEq t.primary_index wc.value with
        | some i => (t.rows.get? i).toList
        | none => []
      else t.rows.filter (fun r => rowMatches r wc)
    | none => t.rows
  { success := true,
    message := "Selected " ++ toString filtered.length ++ " row(s)",
    columns := cols,
    data := filtered.map (fun r => cols.map (fun c => rowFind? r c)) }

/-- Positions of the rows matched by a WHERE predicate (in increasing
order), as computed by the scan loops of `Table.update` / `Table.delete`. -/
def matched_idxs (rows : List Row) (w : WhereClause) : List Nat :=
  rows.enum.filterMap (fun p => if rowMatches p.2 w then some p.1 else none)

/-- In-place update of one list position (identity when out of range, which
cannot happen for the positions produced by `matched_idxs`). -/
def listModify : List α → Nat → (α → α) → List α
  | [], _, _ => []
  | a :: as, 0, f => f a :: as
  | a :: as, n + 1, f => a :: listModify as n f

/-- `column_types[col]` — guarded by `col in column_names` in the source, and
every declared column name has an entry, so the default is unreachable. -/
def colTypeD (t : Table) (c : String) : String :=
  (alFind? strEq t.column_types c).getD ""

/-- The inner SET loop of `Table.update` on one matched row: assignments to
unknown columns are skipped; a conversion failure aborts, returning the row
storage as mutated so far. -/
def run_set (t : Table) : List Row → Nat → List (String × Value) →
    Except (String × List Row) (List Row)
  | rows, _, [] => .ok rows
  | rows, i, (c, v) :: rest =>
    if c ∈ t.column_names then
      match convert_value v (colTypeD t c) with
      | .ok cv => run_set t (listModify rows i (fun r => alSet strEq r c cv)) i rest
      | .error e => .error ("Type error: " ++ e, rows)
    else run_set t rows i rest

/-- The outer loop of `Table.update` over the matched row positions. -/
def run_rows (t : Table) (sv : List (String × Value)) :
    List Row → List Nat → Except (String × List Row) (List Row)
  | rows, [] => .ok rows
  | rows, i :: is =>
    match run_set t rows i sv with
    | .ok rows' => run_rows t sv rows' is
    | .error e => .error e

/-- The row storage carried by a `run_set` / `run_rows` outcome: the mutated
storage at the point of failure, or the fully updated storage. -/
def exRows : Except (String × List Row) (List Row) → List Row
  | .ok r => r
  | .error e => e.2

/-- `run_set` on one row followed by `run_rows` on the remaining matched
rows — the evaluation state of `Table.update`'s nested loops. -/
def run_from (t : Table) (sv : List (String × Value)) (rows : List Row)
    (i : Nat) (cur : List (String × Value)) (is : List Nat) :
    Except (String × List Row) (List Row) :=
  match run_set t rows i cur with
  | .ok r1 => run_rows t sv r1 is
  | .error e => .error e

/-- Helper for `upd_trace`: remaining assignments of the current row
(position `i`), then the remaining matched rows, cut short at the first
conversion failure. -/
def upd_trace_go (t : Table) (sv : List (String × Value)) :
    Nat → List (String × Value) → List Nat → List (Nat × String × Value)
  | _, [], [] => []
  | _, [], j :: js => upd_trace_go t sv j sv js
  | i, (c, v) :: rest, is =>
    if c ∈ t.column_names then
      match convert_value v (colTypeD t c) with
      | .ok cv => (i, c, cv) :: upd_trace_go t sv i rest is
      | .error _ => []
    else upd_trace_go t sv i rest is
termination_by _ cur is => (is.length, cur.length)

/-- The trace of successfully converted assignments executed by
`Table.update` before its first conversion failure (all of them, when no
failure occurs): `(row position, column, converted value)` in execution
order. -/
def upd_trace (t : Table) (sv : List (String × Value)) :
    List Nat → List (Nat × String × Value)
  | [] => []
  | i :: is => upd_trace_go t sv i sv is

/-- `Table.update`: reject a missing WHERE clause, find matched rows by
linear scan, then run the SET assignments row by row.  On a conversion
failure the call fails but keeps the storage as mutated so far (the Python
method returns from inside the loop with `self.rows` already changed). -/
def Table.update (t : Table) (set_values : List (String × Value))
    (w : Option WhereClause) : Table × QueryResult :=
  match w with
  | none => (t, failR "UPDATE without WHERE clause is not supported")
  | some wc =>
    let idxs := matched_idxs t.rows wc
    if idxs = [] then (t, okR "Updated 0 row(s)")
    else
      match run_rows t set_values t.rows idxs with
      | .ok rows' =>
        ({ t with rows := rows' },
          okR ("Updated " ++ toString idxs.length ++ " row(s)"))
      | .error (msg, rows') => ({ t with rows := rows' }, failR msg)

/-- State threaded through the removal loop of `Table.delete`. -/
structure PopSt where
  rows : List Row
  primary_index : Index
  unique_indexes : List (String × Index)
deriving DecidableEq

/-- One iteration of the removal loop of `Table.delete`: pop the row at a
position, delete its primary-index entry and its unique-index entries when
present.  (An out-of-range position would be a Python `IndexError`; the loop
visits valid positions in descending order, so the `none` branch is
unreachable.) -/
def popOne (t : Table) (st : PopSt) (i : Nat) : PopSt :=
  match st.rows.get? i with
  | none => st
  | some row =>
    let pkVal := rowGetD row t.primary_key
    { rows := st.rows.eraseIdx i,
      primary_index :=
        if alContains pyEq st.primary_index pkVal then
          alErase pyEq st.primary_index pkVal
        else st.primary_index,
      unique_indexes := t.unique_columns.foldl (fun uis col =>
        match alFind? strEq uis col with
        | some m =>
          if alContains pyEq m (rowGetD row col) then
            alSet strEq uis col (alErase pyEq m (rowGetD row col))
          else uis
        | none => uis) st.unique_indexes }

/-- `Table._rebuild_indexes`'s per-column scan: enumerate the remaining rows
and map each row's value in `col` to its new position. -/
def build_index (rows : List Row) (col : String) : Index :=
  rows.enum.foldl (fun ix p => alSet pyEq ix (rowGetD p.2 col) p.1) []

/-- `Table._rebuild_indexes`: clear the primary index and every unique index,
then repopulate them by scanning the rows in order.  (The per-column dicts
have exactly the unique columns as keys, established at `__init__`; clearing
and repopulating them is rebuilding each from the rows.) -/
def rebuild_indexes (t : Table) : Table :=
  { t with
    primary_index := build_index t.rows t.primary_key,
    unique_indexes := t.unique_columns.map (fun c => (c, build_index t.rows c)) }

/-- `Table.delete`: reject a missing WHERE clause, find matched positions by
linear scan, pop them in descending order (`sorted(..., reverse=True)` of the
increasing scan order is its reverse) while deleting their index entries,
then rebuild all indexes unconditionally. -/
def Table.delete (t : Table) (w : Option WhereClause) : Table × QueryResult :=
  match w with
  | none => (t, failR "DELETE without WHERE clause is not supported")
  | some wc =>
    let idxs := matched_idxs t.rows wc
    if idxs = [] then (t, okR "Deleted 0 row(s)")
    else
      let st := idxs.reverse.foldl (popOne t)
        ⟨t.rows, t.primary_index, t.unique_indexes⟩
      let t' := rebuild_indexes
        { t with
            rows := st.rows
            primary_index := st.primary_index
            unique_indexes := st.unique_indexes }
      (t', okR ("Deleted " ++ toString idxs.length ++ " row(s)"))

/-- An insert or delete operation, for stating the index invariant over
operation sequences. -/
inductive TableOp where
  | ins : List Value → TableOp
  | del : Option WhereClause → TableOp

/-- Apply one operation to a table, keeping the resulting state. -/
def applyOp (t : Table) : TableOp → Table
  | .ins vs => (t.insert vs).1
  | .del w => (t.delete w).1

/-- Apply a sequence of insert/delete operations. -/
def applyOps (t : Table) (ops : List TableOp) : Table :=
  ops.foldl applyOp t

/-! ## `src/database.py`: the executor's inner join -/

/-- The database's table mapping (dict from table name to table). -/
abbrev SimpleDB := List (String × Table)

/-- `SimpleDB.get_table`. -/
def get_table (db : SimpleDB) (name : String) : Option Table :=
  alFind? strEq db name

/-- The parsed `SELECT ... JOIN` statement fields used by the executor
(`_handle_select_join` reads only the two column names out of
`join_condition`). -/
structure SelectJoinStmt where
  columns : List String
  left_table : String
  right_table : String
  left_column : String
  right_column : String
  whereClause : Option WhereClause
deriving DecidableEq

/-- Merge one matching pair of rows: every column of both tables, keyed by
the prefixed names (left table's columns first, then the right's; built as a
Python dict, so on a self-join the right side overwrites equal keys). -/
def merge_row (p : SelectJoinStmt) (lt rt : Table) (lr rr : Row) : Row :=
  let m := lt.column_names.foldl
    (fun m c => alSet strEq m (p.left_table ++ "." ++ c) (rowGetD lr c)) []
  rt.column_names.foldl
    (fun m c => alSet strEq m (p.right_table ++ "." ++ c) (rowGetD rr c)) m

/-- The nested-loop inner join of `_handle_select_join`: for every left row,
for every right row, merge when the join-column values satisfy Python
equality. -/
def build_join_rows (p : SelectJoinStmt) (lt rt : Table) : List Row :=
  lt.rows.flatMap (fun lr =>
    rt.rows.filterMap (fun rr =>
      if pyEq (rowGetD lr p.left_column) (rowGetD rr p.right_column) then
        some (merge_row p lt rt lr rr)
      else none))

/-- The number of ordered row pairs whose join-column values satisfy a given
equality predicate. -/
def match_count (eq : Value → Value → Bool) (lt rt : Table)
    (lcol rcol : String) : Nat :=
  ((lt.rows.product rt.rows).countP
    (fun pr => eq (rowGetD pr.1 lcol) (rowGetD pr.2 rcol)))

/-- `SimpleDB._handle_select_join`: resolve both tables, validate the join
columns, build the joined rows, apply the optional WHERE filter against the
merged-row keys, default the output columns for `*`, and project. -/
def handle_select_join (db : SimpleDB) (p : SelectJoinStmt) : QueryResult :=
  match get_table db p.left_table with
  | none => failR ("Table '" ++ p.left_table ++ "' does not exist")
  | some lt =>
    match get_table db p.right_table with
    | none => failR ("Table '" ++ p.right_table ++ "' does not exist")
    | some rt =>
      if p.left_column ∉ lt.column_names then
        failR ("Column '" ++ p.left_column ++ "' not found in table '" ++
          p.left_table ++ "'")
      else if p.right_column ∉ rt.column_names then
        failR ("Column '" ++ p.right_column ++ "' not found in table '" ++
          p.right_table ++ "'")
      else
        let joined := build_join_rows p lt rt
        let joined' :=
          match p.whereClause with
          | some wc => joined.filter (fun r => rowMatches r wc)
          | none => joined
        let outCols :=
          if p.columns = ["*"] then
            lt.column_names.map (fun c => p.left_table ++ "." ++ c) ++
              rt.column_names.map (fun c => p.right_table ++ "." ++ c)
          else p.columns
        { success := true,
          message := "Selected " ++ toString joined'.length ++ " row(s) from JOIN",
          columns := outCols,
          data := joined'.map (fun r => outCols.map (fun c => rowFind? r c)) }

/-! ## Invariants (spec section 3 / claim C1) -/

/-- An index is an exact reflection of a column over the stored rows: one
entry per row, mapping each row's value in that column to the row's current
position (`no stale and no missing entries`). -/
def index_correct (idx : Index) (rows : List Row) (col : String) : Prop :=
  idx.length = rows.length ∧
    ∀ i r, rows.get? i = some r → alFind? pyEq idx (rowGetD r col) = some i

/-- The index invariant of a table: the primary index reflects the primary
key column, and each unique column's index reflects that column. -/
def table_inv (t : Table) : Prop :=
  index_correct t.primary_index t.rows t.primary_key ∧
    ∀ u ∈ t.unique_columns, ∃ m,
      alFind? strEq t.unique_indexes u = some m ∧ index_correct m t.rows u

/-! ## Concrete instances used by witnesses and counterexamples -/

/-- The spec's scenario table: `CREATE TABLE users (id INT PRIMARY KEY,
name TEXT, email TEXT UNIQUE)`. -/
def usersT : Table :=
  mkTable "users" [("id", "INT"), ("name", "TEXT"), ("email", "TEXT")] "id" ["email"]

/-- `usersT` after `INSERT INTO users VALUES (1, 'John', 'j@x.com')`. -/
def usersT1 : Table :=
  (usersT.insert [.int 1, .text "John", .text "j@x.com"]).1

/-- A two-integer-column table `t(a INT PRIMARY KEY, b INT)`. -/
def pairT : Table := mkTable "t" [("a", "INT"), ("b", "INT")] "a" []

/-- `pairT` holding the single row `(1, 2)`. -/
def pairT1 : Table := (pairT.insert [.int 1, .int 2]).1

/-- `pairT` holding the rows `(1, 1)` and `(2, 1)` (two rows share `b = 1`,
so a WHERE on `b` matches both). -/
def twoT : Table := ((pairT.insert [.int 1, .int 1]).1.insert [.int 2, .int 1]).1

/-- A one-column table `u(a FLOAT PRIMARY KEY)` holding the float `1.0`
(inserted as the integer 1, converted by `float(1)`). -/
def floatT : Table := ((mkTable "u" [("a", "FLOAT")] "a" []).insert [.int 1]).1

/-- A one-column table `v(b INT PRIMARY KEY)` holding the integer `1`. -/
def intT : Table := ((mkTable "v" [("b", "INT")] "b" []).insert [.int 1]).1

/-- A database holding `floatT` and `intT`. -/
def dbFI : SimpleDB := [("u", floatT), ("v", intT)]

/-- The join statement `SELECT * FROM u JOIN v ON u.a = v.b`. -/
def stmtFI : SelectJoinStmt := ⟨["*"], "u", "v", "a", "b", none⟩

/-- A table `users(id INT PRIMARY KEY, name TEXT)` with rows (1, A), (2, B). -/
def joinUsers : Table :=
  ((((mkTable "users" [("id", "INT"), ("name", "TEXT")] "id" []).insert
    [.int 1, .text "A"]).1).insert [.int 2, .text "B"]).1

/-- A table `orders(oid INT PRIMARY KEY, uid INT)` with rows (10, 1), (11, 2). -/
def joinOrders : Table :=
  ((((mkTable "orders" [("oid", "INT"), ("uid", "INT")] "oid" []).insert
    [.int 10, .int 1]).1).insert [.int 11, .int 2]).1

/-- A database holding `joinUsers` and `joinOrders`. -/
def dbUO : SimpleDB := [("users", joinUsers), ("orders", joinOrders)]

/-- The join statement of `SELECT * FROM users JOIN orders ON users.id =
orders.uid WHERE users.id = 1` as the parser produces it: the WHERE clause
text goes through `_parse_where`. -/
def stmtUO : SelectJoinStmt :=
  ⟨["*"], "users", "orders", "id", "uid", parse_where "users.id = 1"⟩


/-! ## Helper lemmas -/

theorem pyEq_refl (v : Value) : pyEq v v = true := by
  rcases v with n | f | s
  · simp [pyEq]
  · rcases f with q | b <;> simp [pyEq]
  · simp [pyEq]

theorem strEq_refl (s : String) : strEq s s = true := by
  simp [strEq]

theorem alFind?_alSet_none {beq : κ → κ → Bool} {l : List (κ × α)} {k : κ}
    (h : alFind? beq l k = none) (v : α) : alSet beq l k v = l ++ [(k, v)] := by
  induction l with
  | nil => rfl
  | cons p es ih =>
    obtain ⟨k', v'⟩ := p
    simp only [alFind?] at h
    simp only [alSet]
    by_cases hb : beq k' k = true
    · simp [hb] at h
    · simp only [hb, if_false, Bool.false_eq_true, if_neg, not_false_iff] at h ⊢
      simp [ih h]

theorem alFind?_append_left {beq : κ → κ → Bool} {l : List (κ × α)} {k : κ} {v : α}
    (h : alFind? beq l k = some v) (l' : List (κ × α)) :
    alFind? beq (l ++ l') k = some v := by
  induction l with
  | nil => simp [alFind?] at h
  | cons p es ih =>
    obtain ⟨k', v'⟩ := p
    simp only [alFind?] at h ⊢
    split at h
    · next hb => simp [hb, h]
    · next hb => simp [hb, ih h]

theorem alFind?_append_none {beq : κ → κ → Bool} {l : List (κ × α)} {k : κ}
    (h : alFind? beq l k = none) (l' : List (κ × α)) :
    alFind? beq (l ++ l') k = alFind? beq l' k := by
  induction l with
  | nil => rfl
  | cons p es ih =>
    obtain ⟨k', v'⟩ := p
    simp only [alFind?] at h ⊢
    split at h
    · simp at h
    · next hb => simp [hb, ih h]

/-- `Table.insert` failure branches leave the table untouched; the success
branch returns a result with `success := true`. -/
theorem insert_state_or_success (t : Table) (vs : List Value) :
    (t.insert vs).1 = t ∨ (t.insert vs).2.success = true := by
  unfold Table.insert
  split
  · exact .inl rfl
  · split
    · exact .inl rfl
    · dsimp only
      split
      · exact .inl rfl
      · split
        · exact .inl rfl
        · exact .inr rfl

/-! ## Claims C5 and C2 -/

/-- C5: for every table state, calling update or delete with no WHERE
predicate returns a failure result and leaves the rows sequence, the
primary index, and every unique index unchanged (the whole table state is
returned untouched). -/
theorem c5_missing_where (t : Table) (sv : List (String × Value)) :
    t.update sv none = (t, failR "UPDATE without WHERE clause is not supported") ∧
      t.delete none = (t, failR "DELETE without WHERE clause is not supported") :=
  ⟨rfl, rfl⟩

/-- C2: insert is atomic — whenever `Table.insert` returns a failure result
(wrong value count, type-conversion error, primary-key violation, or unique
violation), the resulting table state (rows, primary index and every unique
index) is exactly the state before the call. -/
theorem c2_insert_atomic (t : Table) (vs : List Value)
    (h : (t.insert vs).2.success = false) : (t.insert vs).1 = t := by
  rcases insert_state_or_success t vs with hs | hs
  · exact hs
  · rw [hs] at h; cases h

/-- Witness for C2: inserting a wrong-arity value list into the scenario
table fails and leaves the table untouched. -/
theorem c2_insert_atomic_witness :
    (usersT.insert [.int 2]).2.success = false ∧ (usersT.insert [.int 2]).1 = usersT :=
  ⟨by decide, c2_insert_atomic usersT [.int 2] (by decide)⟩

/-! ## Claim C6: insert/select round trip -/

/-- The static fields of a table (name, schema, constraints) are unchanged by
`Table.insert`. -/
theorem insert_static (t : Table) (vs : List Value) :
    (t.insert vs).1.columns = t.columns ∧
      (t.insert vs).1.column_names = t.column_names ∧
      (t.insert vs).1.column_types = t.column_types ∧
      (t.insert vs).1.primary_key = t.primary_key ∧
      (t.insert vs).1.unique_columns = t.unique_columns ∧
      (t.insert vs).1.name = t.name := by
  unfold Table.insert
  split
  · exact ⟨rfl, rfl, rfl, rfl, rfl, rfl⟩
  · split
    · exact ⟨rfl, rfl, rfl, rfl, rfl, rfl⟩
    · dsimp only
      split
      · exact ⟨rfl, rfl, rfl, rfl, rfl, rfl⟩
      · split
        · exact ⟨rfl, rfl, rfl, rfl, rfl, rfl⟩
        · exact ⟨rfl, rfl, rfl, rfl, rfl, rfl⟩

/-- Shape of a successful `Table.insert`: the converted row exists, its
primary-key value was absent from the primary index, the row is appended at
the end, and the primary index gains the new mapping. -/
theorem insert_success_spec (t : Table) (vs : List Value)
    (h : (t.insert vs).2.success = true) :
    ∃ row, build_row t.columns vs [] = .ok row ∧
      alFind? pyEq t.primary_index (rowGetD row t.primary_key) = none ∧
      find_unique_violation t row = none ∧
      (t.insert vs).1.rows = t.rows ++ [row] ∧
      (t.insert vs).1.primary_index =
        alSet pyEq t.primary_index (rowGetD row t.primary_key) t.rows.length ∧
      (t.insert vs).1.unique_indexes =
        insert_unique_update t.unique_columns t.unique_indexes row
          t.rows.length := by
  unfold Table.insert at h ⊢
  by_cases h1 : vs.length ≠ t.columns.length
  · rw [if_pos h1] at h; simp [failR] at h
  · rw [if_neg h1] at h ⊢
    cases hbr : build_row t.columns vs [] with
    | error msg => rw [hbr] at h; simp [failR] at h
    | ok row =>
      rw [hbr] at h
      dsimp only at h ⊢
      by_cases h2 : alContains pyEq t.primary_index (rowGetD row t.primary_key) = true
      · rw [if_pos h2] at h; simp [failR] at h
      · rw [if_neg h2] at h ⊢
        have hnone : alFind? pyEq t.primary_index (rowGetD row t.primary_key) = none := by
          cases hf : alFind? pyEq t.primary_index (rowGetD row t.primary_key)
          · rfl
          · exact absurd (by simp [alContains, hf]) h2
        cases huv : find_unique_violation t row with
        | some cv =>
          obtain ⟨c, v⟩ := cv
          rw [huv] at h; simp [failR] at h
        | none => exact ⟨row, rfl, hnone, huv, rfl, rfl, rfl⟩

/-- C6: round-trip — for every table and value list whose insert succeeds
producing row `R`, selecting all columns with a WHERE predicate on the
primary-key column equal to `R`'s primary-key value returns success with
exactly one data row, whose cells are exactly `R`'s values at the declared
columns in declared order. -/
theorem c6_roundtrip (t : Table) (vs : List Value)
    (h : (t.insert vs).2.success = true) :
    ∃ row, (t.insert vs).1.rows = t.rows ++ [row] ∧
      ((t.insert vs).1.select ["*"]
          (some ⟨t.primary_key, rowGetD row t.primary_key⟩)).success = true ∧
      ((t.insert vs).1.select ["*"]
          (some ⟨t.primary_key, rowGetD row t.primary_key⟩)).data =
        [t.column_names.map (fun c => rowFind? row c)] := by
  obtain ⟨row, hbr, hnone, -, hrows, hpi, -⟩ := insert_success_spec t vs h
  obtain ⟨-, hcn, -, hpk, -, -⟩ := insert_static t vs
  refine ⟨row, hrows, rfl, ?_⟩
  unfold Table.select
  rw [hpk, hpi, hcn, hrows, alFind?_alSet_none hnone]
  simp [alFind?_append_none hnone, alFind?, pyEq_refl, List.get?_concat_length]

/-- Witness for C6: the scenario insert into `usersT` succeeds, and the
primary-key select returns exactly the inserted row. -/
theorem c6_roundtrip_witness :
    (usersT.insert [.int 1, .text "John", .text "j@x.com"]).2.success = true ∧
      ∃ row, (usersT.insert [.int 1, .text "John", .text "j@x.com"]).1.rows =
          usersT.rows ++ [row] ∧
        ((usersT.insert [.int 1, .text "John", .text "j@x.com"]).1.select ["*"]
            (some ⟨usersT.primary_key, rowGetD row usersT.primary_key⟩)).success = true ∧
        ((usersT.insert [.int 1, .text "John", .text "j@x.com"]).1.select ["*"]
            (some ⟨usersT.primary_key, rowGetD row usersT.primary_key⟩)).data =
          [usersT.column_names.map (fun c => rowFind? row c)] :=
  ⟨by rfl, c6_roundtrip usersT [.int 1, .text "John", .text "j@x.com"] (by rfl)⟩

/-! ## Claims C4 and C10: the value-list scanner -/

/-- While the scanner is inside quotes, every character other than the
closing quote character is appended to `current` verbatim (commas and the
other quote character included). -/
theorem scan_quoted_segment {q : Char} (cs : List Char) (st : ScanSt)
    (hiq : st.inQuotes = true) (hqc : st.quoteChar = some q)
    (hcs : ∀ c ∈ cs, c ≠ q) :
    cs.foldl scanStep st = { st with current := st.current ++ cs } := by
  induction cs generalizing st with
  | nil => simp
  | cons c rest ih =>
    have h1 : ¬((c = dQuote ∨ c = sQuote) ∧ st.inQuotes = false) := by simp [hiq]
    have h2 : ¬(st.quoteChar = some c ∧ st.inQuotes = true) := by
      rw [hqc]
      have : c ≠ q := hcs c (by simp)
      simp [this.symm]
    have h3 : ¬(c = ',' ∧ st.inQuotes = false) := by simp [hiq]
    simp only [List.foldl_cons]
    rw [show scanStep st c = { st with current := st.current ++ [c] } by
      unfold scanStep; rw [if_neg h1, if_neg h2, if_neg h3]]
    rw [ih { st with current := st.current ++ [c] } hiq hqc
      (fun c hc => hcs c (by simp [hc]))]
    simp

/-- C4 (corrected): contrary to the claim, a quoted numeric literal does not
stay text — the scanner consumes the quote characters, so the segment
`'123'` of an INSERT value list parses to the integer 123, not to the text
"123". -/
theorem c4_counterexample :
    parse_values "'123'" ≠ [Value.text "123"] ∧
      parse_values "'123'" = [Value.int 123] := by
  constructor
  · decide
  · decide

/-- C4 (amended): for a value-list segment wrapped in one consistent quote
character, the quotes are consumed during scanning, and the parsed value is
single-value parsing applied to the bare inner text: non-numeric text stays
text verbatim, but numeric inner text parses as a number (never as quoted
text), e.g. `'123'` parses to the integer 123. -/
theorem c4_quoted_segment (inner : List Char) (q : Char)
    (hq : q = dQuote ∨ q = sQuote) (hin : ∀ c ∈ inner, c ≠ q)
    (htrim : trimList inner = inner) (hne : inner ≠ []) :
    parse_values (String.mk (q :: inner ++ [q])) =
        [parse_single_value (String.mk inner)] ∧
      parse_values "'123'" = [Value.int 123] := by
  refine ⟨?_, by decide⟩
  unfold parse_values scanRun
  have hfirst : scanStep ⟨[], [], false, none⟩ q =
      ⟨[], [], true, some q⟩ := by
    unfold scanStep
    rw [if_pos ⟨hq, rfl⟩]
  have hlast : scanStep ⟨[], inner, true, some q⟩ q =
      ⟨[], inner, false, none⟩ := by
    unfold scanStep
    rw [if_neg (by simp), if_pos ⟨rfl, rfl⟩]
  have : (String.mk (q :: inner ++ [q])).toList = q :: (inner ++ [q]) := rfl
  rw [this]
  simp only [List.foldl_cons, hfirst]
  rw [List.foldl_append]
  rw [scan_quoted_segment inner _ rfl rfl hin]
  simp only [List.foldl_cons, List.foldl_nil, List.nil_append]
  rw [hlast]
  simp only [htrim]
  have hne' : String.mk inner ≠ "" := by
    simpa [String.ext_iff] using hne
  simp [hne']

/-- Witness for C4's amended theorem: the quoted non-numeric segment
`'abc'` parses to the text `abc`. -/
theorem c4_quoted_segment_witness :
    parse_values (String.mk (sQuote :: ['a', 'b', 'c'] ++ [sQuote])) =
        [parse_single_value (String.mk ['a', 'b', 'c'])] ∧
      parse_values "'123'" = [Value.int 123] :=
  c4_quoted_segment ['a', 'b', 'c'] sQuote (by decide) (by decide) (by decide)
    (by decide)

/-- C10: a final value-list segment that is empty after stripping (for
example a trailing empty quoted string `''`) is dropped: appending `,''` to
any quote-closed value list parses the same as appending a bare `,`, the
parsed list is one shorter than the number of comma-separated segments, and
the shortened list can then fail insert with a column-count mismatch, as the
concrete list `1,''` against a two-column table does. -/
theorem c10_trailing_empty (s : String) (h : (scanRun s).inQuotes = false) :
    parse_values (s ++ ",''") = parse_values (s ++ ",") ∧
      (parse_values (s ++ ",''")).length + 1 = numSegments (s ++ ",''") ∧
      parse_values "1,''" = [Value.int 1] ∧
      (pairT.insert (parse_values "1,''")).2 = failR "Expected 2 values, got 1" := by
  have hsteps : ∀ st : ScanSt, st.inQuotes = false →
      [',', sQuote, sQuote].foldl scanStep st =
        ⟨st.values ++ [parse_single_value (String.mk (trimList st.current))],
          [], false, none⟩ := by
    intro st hst
    obtain ⟨v, cur, iq, qc⟩ := st
    simp only at hst
    subst hst
    simp only [List.foldl_cons, List.foldl_nil]
    rw [show scanStep ⟨v, cur, false, qc⟩ ',' =
        ⟨v ++ [parse_single_value (String.mk (trimList cur))], [], false, qc⟩ by
      unfold scanStep
      rw [if_neg (by rintro ⟨hc, -⟩; revert hc; decide), if_neg (by simp),
        if_pos ⟨rfl, rfl⟩]]
    rw [show scanStep ⟨v ++ [parse_single_value (String.mk (trimList cur))], [], false, qc⟩ sQuote =
        ⟨v ++ [parse_single_value (String.mk (trimList cur))], [], true, some sQuote⟩ by
      unfold scanStep
      rw [if_pos ⟨Or.inr rfl, rfl⟩]]
    rw [show scanStep ⟨v ++ [parse_single_value (String.mk (trimList cur))], [], true, some sQuote⟩ sQuote =
        ⟨v ++ [parse_single_value (String.mk (trimList cur))], [], false, none⟩ by
      unfold scanStep
      rw [if_neg (by simp), if_pos ⟨rfl, rfl⟩]]
  have hcomma : ∀ st : ScanSt, st.inQuotes = false →
      [','].foldl scanStep st =
        ⟨st.values ++ [parse_single_value (String.mk (trimList st.current))],
          [], false, st.quoteChar⟩ := by
    intro st hst
    obtain ⟨v, cur, iq, qc⟩ := st
    simp only at hst
    subst hst
    simp only [List.foldl_cons, List.foldl_nil]
    rw [show scanStep ⟨v, cur, false, qc⟩ ',' =
        ⟨v ++ [parse_single_value (String.mk (trimList cur))], [], false, qc⟩ by
      unfold scanStep
      rw [if_neg (by rintro ⟨hc, -⟩; revert hc; decide), if_neg (by simp),
        if_pos ⟨rfl, rfl⟩]]
  have htl : ∀ t : String, (s ++ t).toList = s.toList ++ t.toList := by
    intro t; rfl
  have hrun : ∀ t : String, scanRun (s ++ t) = t.toList.foldl scanStep (scanRun s) := by
    intro t
    unfold scanRun
    rw [htl t, List.foldl_append]
  refine ⟨?_, ?_, by decide, by decide⟩
  · unfold parse_values
    rw [hrun ",''", hrun ","]
    rw [show (",''" : String).toList = [',', sQuote, sQuote] by rfl]
    rw [show ("," : String).toList = [','] by rfl]
    rw [hsteps _ h, hcomma _ h]
  · unfold parse_values numSegments
    rw [hrun ",''"]
    rw [show (",''" : String).toList = [',', sQuote, sQuote] by rfl]
    rw [hsteps _ h]
    have hnil : String.mk (trimList []) = "" := rfl
    simp [hnil]

/-- Witness for C10: the value list `1,''` itself (its scan ends outside
quotes), where the parsed list drops the empty trailing segment. -/
theorem c10_trailing_empty_witness :
    parse_values ("1" ++ ",''") = parse_values ("1" ++ ",") ∧
      (parse_values ("1" ++ ",''")).length + 1 = numSegments ("1" ++ ",''") ∧
      parse_values "1,''" = [Value.int 1] ∧
      (pairT.insert (parse_values "1,''")).2 = failR "Expected 2 values, got 1" :=
  c10_trailing_empty "1" (by decide)

/-! ## Claims C9 and C8: `Table.update` semantics -/

theorem alFind?_alSet_self_str (l : List (String × α)) (k : String) (v : α) :
    alFind? strEq (alSet strEq l k v) k = some v := by
  induction l with
  | nil => simp [alSet, alFind?, strEq]
  | cons p es ih =>
    obtain ⟨k', v'⟩ := p
    by_cases hb : strEq k' k = true
    · simp [alSet, alFind?, hb]
    · simp [alSet, alFind?, hb, ih]

theorem alFind?_alSet_ne_str (l : List (String × α)) {a k : String} (h : a ≠ k)
    (v : α) : alFind? strEq (alSet strEq l k v) a = alFind? strEq l a := by
  induction l with
  | nil =>
    have : strEq k a = false := by
      simp [strEq]
      exact fun hh => h hh.symm
    simp [alSet, alFind?, this]
  | cons p es ih =>
    obtain ⟨k', v'⟩ := p
    by_cases hb : strEq k' k = true
    · have hk : k' = k := by simpa [strEq] using hb
      have : strEq k' a = false := by
        simp [strEq, hk]
        exact fun hh => h hh.symm
      simp [alSet, alFind?, hb, this]
    · simp only [alSet, hb, if_false, Bool.false_eq_true, if_neg, not_false_iff]
      by_cases hc : strEq k' a = true
      · simp [alFind?, hc]
      · simp [alFind?, hc, ih]

theorem listModify_length (l : List α) (i : Nat) (f : α → α) :
    (listModify l i f).length = l.length := by
  induction l generalizing i with
  | nil => rfl
  | cons a as ih =>
    cases i with
    | zero => rfl
    | succ n => simp [listModify, ih]

theorem listModify_getD (l : List α) (i j : Nat) (f : α → α) (d : α) :
    (listModify l i f).getD j d =
      if i = j ∧ j < l.length then f (l.getD j d) else l.getD j d := by
  induction l generalizing i j with
  | nil => simp [listModify]
  | cons a as ih =>
    cases i with
    | zero =>
      cases j with
      | zero => simp [listModify]
      | succ m => simp [listModify]
    | succ n =>
      cases j with
      | zero => simp [listModify]
      | succ m =>
        simp only [listModify, List.getD_cons_succ, ih, List.length_cons]
        by_cases hij : n = m
        · simp [hij]
        · simp [hij, fun hh => hij (Nat.succ_injective hh)]

theorem run_set_length (t : Table) (cur : List (String × Value)) (rows : List Row)
    (i : Nat) : (exRows (run_set t rows i cur)).length = rows.length := by
  induction cur generalizing rows with
  | nil => rfl
  | cons p rest ih =>
    obtain ⟨c, v⟩ := p
    by_cases hc : c ∈ t.column_names
    · simp only [run_set, hc, if_true]
      cases hcv : convert_value v (colTypeD t c) with
      | ok cv => rw [ih]; exact listModify_length ..
      | error e => rfl
    · simpa [run_set, hc] using ih rows

theorem run_rows_length (t : Table) (sv : List (String × Value))
    (is : List Nat) (rows : List Row) :
    (exRows (run_rows t sv rows is)).length = rows.length := by
  induction is generalizing rows with
  | nil => rfl
  | cons i is ih =>
    simp only [run_rows]
    cases hr : run_set t rows i sv with
    | ok r1 =>
      have h1 : (exRows (run_set t rows i sv)).length = rows.length :=
        run_set_length ..
      rw [hr] at h1
      rw [ih r1]
      exact h1
    | error e =>
      have h1 : (exRows (run_set t rows i sv)).length = rows.length :=
        run_set_length ..
      rw [hr] at h1
      exact h1

/-- Cells whose column is, for every assignment in the SET list, either a
different column or an unknown one, are untouched by the inner SET loop
(in both the success and the failure outcome). -/
theorem run_set_cell_preserved (t : Table) (cur : List (String × Value))
    (rows : List Row) (i : Nat) {c : String}
    (h : ∀ p ∈ cur, p.1 ≠ c ∨ p.1 ∉ t.column_names) (j : Nat) :
    rowFind? ((exRows (run_set t rows i cur)).getD j []) c =
      rowFind? (rows.getD j []) c := by
  induction cur generalizing rows with
  | nil => rfl
  | cons p rest ih =>
    obtain ⟨c', v⟩ := p
    by_cases hc : c' ∈ t.column_names
    · have hne : c' ≠ c := by
        rcases h (c', v) (by simp) with h1 | h1
        · exact h1
        · exact absurd hc h1
      simp only [run_set, hc, if_true]
      cases hcv : convert_value v (colTypeD t c') with
      | ok cv =>
        rw [ih _ (fun p hp => h p (by simp [hp]))]
        rw [listModify_getD]
        split
        · simp only [rowFind?]
          exact alFind?_alSet_ne_str _ (fun hh => hne hh.symm) _
        · rfl
      | error e => rfl
    · simpa [run_set, hc] using ih rows (fun p hp => h p (by simp [hp]))

/-- Rows at positions outside the matched list are untouched by the outer
update loop. -/
theorem run_rows_other (t : Table) (sv : List (String × Value))
    (is : List Nat) (rows : List Row) {j : Nat} (hj : j ∉ is) :
    (exRows (run_rows t sv rows is)).getD j [] = rows.getD j [] := by
  induction is generalizing rows with
  | nil => rfl
  | cons i is ih =>
    have hji : j ≠ i := fun hh => hj (by simp [hh])
    have hset : ∀ rows', (exRows (run_set t rows' i sv)).getD j [] = rows'.getD j [] := by
      intro rows'
      clear ih
      induction sv generalizing rows' with
      | nil => rfl
      | cons p rest ih2 =>
        obtain ⟨c', v⟩ := p
        by_cases hc : c' ∈ t.column_names
        · simp only [run_set, hc, if_true]
          cases hcv : convert_value v (colTypeD t c') with
          | ok cv =>
            rw [ih2]
            rw [listModify_getD]
            rw [if_neg (by rintro ⟨hh, -⟩; exact hji hh.symm)]
          | error e => rfl
        · simpa [run_set, hc] using ih2 rows'
    simp only [run_rows]
    cases hr : run_set t rows i sv with
    | ok r1 =>
      rw [ih r1 (fun hh => hj (by simp [hh]))]
      have := hset rows
      rwa [hr] at this
    | error e =>
      have := hset rows
      rwa [hr] at this

/-- Cells in unknown columns are untouched by the whole update loop. -/
theorem run_rows_unknown_cell (t : Table) (sv : List (String × Value))
    (is : List Nat) (rows : List Row) {c : String} (hc : c ∉ t.column_names)
    (j : Nat) :
    rowFind? ((exRows (run_rows t sv rows is)).getD j []) c =
      rowFind? (rows.getD j []) c := by
  induction is generalizing rows with
  | nil => rfl
  | cons i is ih =>
    have hset : ∀ rows', rowFind? ((exRows (run_set t rows' i sv)).getD j []) c =
        rowFind? (rows'.getD j []) c :=
      fun rows' => run_set_cell_preserved t sv rows' i
        (fun p _ => by by_cases hp : p.1 = c
                       · exact Or.inr (hp ▸ hc)
                       · exact Or.inl hp) j
    simp only [run_rows]
    cases hr : run_set t rows i sv with
    | ok r1 =>
      rw [ih r1]
      have := hset rows
      rwa [hr] at this
    | error e =>
      have := hset rows
      rwa [hr] at this

/-- Assignments to unknown columns are skipped: the SET loop behaves exactly
as if they were absent. -/
theorem run_set_filter (t : Table) (cur : List (String × Value))
    (rows : List Row) (i : Nat) :
    run_set t rows i cur =
      run_set t rows i (cur.filter (fun p => decide (p.1 ∈ t.column_names))) := by
  induction cur generalizing rows with
  | nil => rfl
  | cons p rest ih =>
    obtain ⟨c, v⟩ := p
    by_cases hc : c ∈ t.column_names
    · simp only [run_set, hc, if_true, List.filter_cons, decide_eq_true hc]
      cases hcv : convert_value v (colTypeD t c) with
      | ok cv => exact ih _
      | error e => rfl
    · simp only [run_set, hc, if_false, List.filter_cons]
      rw [if_neg (by simpa using hc)]
      exact ih rows

theorem run_rows_filter (t : Table) (sv : List (String × Value))
    (is : List Nat) (rows : List Row) :
    run_rows t sv rows is =
      run_rows t (sv.filter (fun p => decide (p.1 ∈ t.column_names))) rows is := by
  induction is generalizing rows with
  | nil => rfl
  | cons i is ih =>
    simp only [run_rows]
    rw [← run_set_filter]
    cases run_set t rows i sv with
    | ok r1 => exact ih r1
    | error e => rfl

theorem run_set_all_unknown (t : Table) (cur : List (String × Value))
    (h : ∀ p ∈ cur, p.1 ∉ t.column_names) (rows : List Row) (i : Nat) :
    run_set t rows i cur = .ok rows := by
  induction cur with
  | nil => rfl
  | cons p rest ih =>
    obtain ⟨c, v⟩ := p
    have hc : c ∉ t.column_names := h (c, v) (by simp)
    simp only [run_set, hc, if_false]
    exact ih (fun p hp => h p (by simp [hp]))

theorem run_rows_all_unknown (t : Table) (sv : List (String × Value))
    (h : ∀ p ∈ sv, p.1 ∉ t.column_names) (is : List Nat) (rows : List Row) :
    run_rows t sv rows is = .ok rows := by
  induction is with
  | nil => rfl
  | cons i is ih =>
    simp only [run_rows, run_set_all_unknown t sv h rows i]
    exact ih

/-- C9 (counterexample): the claim's unconditional "the call still returns
success" is false — an update whose SET clause names the unknown column
`zzz` and whose WHERE predicate matches one row nevertheless returns failure
when another assignment in the same SET clause fails type conversion. -/
theorem c9_counterexample :
    ("zzz" ∉ pairT1.column_names) ∧
      matched_idxs pairT1.rows ⟨"a", .int 1⟩ = [0] ∧
      (pairT1.update [("zzz", .int 5), ("b", .text "x")]
          (some ⟨"a", .int 1⟩)).2.success = false :=
  ⟨by decide, by decide, by decide⟩

/-- C9 (amended): SET assignments naming unknown columns are silently
skipped — the update behaves exactly as if they were removed, no row gains
the unknown column, and when every assignment names an unknown column the
call returns success with message `Updated N row(s)` for the N matched rows
and the table unchanged.  (When another, known-column assignment fails type
conversion, the whole call fails — see the counterexample.) -/
theorem c9_unknown_skipped (t : Table) (sv : List (String × Value))
    (w : WhereClause) :
    t.update sv (some w) =
        t.update (sv.filter (fun p => decide (p.1 ∈ t.column_names))) (some w) ∧
      (∀ c, c ∉ t.column_names → ∀ i : Nat,
        rowFind? ((t.update sv (some w)).1.rows.getD i []) c =
          rowFind? (t.rows.getD i []) c) ∧
      ((∀ p ∈ sv, p.1 ∉ t.column_names) →
        (t.update sv (some w)).1 = t ∧
          (t.update sv (some w)).2 =
            okR ("Updated " ++ toString (matched_idxs t.rows w).length ++ " row(s)")) := by
  refine ⟨?_, ?_, ?_⟩
  · unfold Table.update
    dsimp only
    rw [run_rows_filter t sv (matched_idxs t.rows w) t.rows]
  · intro c hc i
    unfold Table.update
    dsimp only
    by_cases he : matched_idxs t.rows w = []
    · simp [he]
    · simp only [he, if_neg, not_false_iff]
      have hcell := run_rows_unknown_cell t sv (matched_idxs t.rows w) t.rows hc i
      cases hr : run_rows t sv t.rows (matched_idxs t.rows w) with
      | ok r1 => rw [hr] at hcell; simpa using hcell
      | error e => rw [hr] at hcell; simpa using hcell
  · intro hall
    have h1 : run_rows t sv t.rows (matched_idxs t.rows w) = .ok t.rows :=
      run_rows_all_unknown t sv hall _ t.rows
    unfold Table.update
    dsimp only
    by_cases he : matched_idxs t.rows w = []
    · simp only [he, if_pos]
      exact ⟨trivial, rfl⟩
    · simp only [he, if_neg, not_false_iff]
      rw [h1]
      exact ⟨rfl, rfl⟩

/-- Witness for C9's amended theorem at a concrete update: SET names only
the unknown column `zzz`, WHERE matches the single stored row. -/
theorem c9_unknown_skipped_witness :
    pairT1.update [("zzz", Value.int 5)] (some ⟨"a", .int 1⟩) =
        pairT1.update ([("zzz", Value.int 5)].filter
          (fun p => decide (p.1 ∈ pairT1.column_names))) (some ⟨"a", .int 1⟩) ∧
      (∀ c, c ∉ pairT1.column_names → ∀ i : Nat,
        rowFind? ((pairT1.update [("zzz", Value.int 5)]
            (some ⟨"a", .int 1⟩)).1.rows.getD i []) c =
          rowFind? (pairT1.rows.getD i []) c) ∧
      ((∀ p ∈ [("zzz", Value.int 5)], p.1 ∉ pairT1.column_names) →
        (pairT1.update [("zzz", Value.int 5)] (some ⟨"a", .int 1⟩)).1 = pairT1 ∧
          (pairT1.update [("zzz", Value.int 5)] (some ⟨"a", .int 1⟩)).2 =
            okR ("Updated " ++
              toString (matched_idxs pairT1.rows ⟨"a", .int 1⟩).length ++ " row(s)")) :=
  c9_unknown_skipped pairT1 [("zzz", Value.int 5)] ⟨"a", .int 1⟩

theorem matched_aux (w : WhereClause) (rows : List Row) : ∀ n : Nat,
    (∀ i ∈ (rows.enumFrom n).filterMap
        (fun p => if rowMatches p.2 w then some p.1 else none),
      n ≤ i ∧ i < n + rows.length) ∧
    ((rows.enumFrom n).filterMap
        (fun p => if rowMatches p.2 w then some p.1 else none)).Pairwise (· < ·) := by
  induction rows with
  | nil => intro n; simp
  | cons r rs ih =>
    intro n
    obtain ⟨ihb, ihp⟩ := ih (n + 1)
    by_cases hm : rowMatches r w = true
    · simp only [List.enumFrom_cons, List.filterMap_cons, hm, if_pos,
        List.length_cons]
      constructor
      · intro i hi
        simp only [List.mem_cons] at hi
        rcases hi with rfl | hi
        · omega
        · have := ihb i hi
          omega
      · exact List.Pairwise.cons (fun i hi => by have := ihb i hi; omega) ihp
    · simp only [List.enumFrom_cons, List.filterMap_cons, hm,
        List.length_cons]
      constructor
      · intro i hi
        have := ihb i hi
        omega
      · exact ihp

theorem matched_idxs_lt (rows : List Row) (w : WhereClause) :
    ∀ i ∈ matched_idxs rows w, i < rows.length := by
  intro i hi
  have := ((matched_aux w rows 0).1 i (by simpa [matched_idxs, List.enum] using hi)).2
  omega

theorem matched_idxs_pairwise (rows : List Row) (w : WhereClause) :
    (matched_idxs rows w).Pairwise (· < ·) := by
  simpa [matched_idxs, List.enum] using (matched_aux w rows 0).2

theorem run_from_cons_ok (t : Table) (sv : List (String × Value))
    (rows : List Row) (i : Nat) {c : String} {v cv : Value}
    (rest : List (String × Value)) (is : List Nat)
    (hc : c ∈ t.column_names) (hcv : convert_value v (colTypeD t c) = .ok cv) :
    run_from t sv rows i ((c, v) :: rest) is =
      run_from t sv (listModify rows i (fun r => alSet strEq r c cv)) i rest is := by
  unfold run_from
  simp only [run_set, hc, if_true, hcv]

theorem run_from_cons_err (t : Table) (sv : List (String × Value))
    (rows : List Row) (i : Nat) {c : String} {v : Value} {e : String}
    (rest : List (String × Value)) (is : List Nat)
    (hc : c ∈ t.column_names) (hcv : convert_value v (colTypeD t c) = .error e) :
    run_from t sv rows i ((c, v) :: rest) is =
      .error ("Type error: " ++ e, rows) := by
  unfold run_from
  simp only [run_set, hc, if_true, hcv]

theorem run_from_cons_skip (t : Table) (sv : List (String × Value))
    (rows : List Row) (i : Nat) {c : String} {v : Value}
    (rest : List (String × Value)) (is : List Nat) (hc : c ∉ t.column_names) :
    run_from t sv rows i ((c, v) :: rest) is = run_from t sv rows i rest is := by
  unfold run_from
  simp only [run_set, hc, if_false]

/-- A cell of the current row whose column no remaining assignment (of the
current row) targets is determined before the rest of the update loop runs. -/
theorem run_from_cell_at_i (t : Table) (sv : List (String × Value))
    (rows : List Row) (i : Nat) {c : String} (cur : List (String × Value))
    (is : List Nat) (hcur : ∀ p ∈ cur, p.1 ≠ c ∨ p.1 ∉ t.column_names)
    (hii : i ∉ is) :
    rowFind? ((exRows (run_from t sv rows i cur is)).getD i []) c =
      rowFind? (rows.getD i []) c := by
  unfold run_from
  cases hr : run_set t rows i cur with
  | ok r1 =>
    have h1 := run_set_cell_preserved t cur rows i hcur i
    rw [hr] at h1
    calc rowFind? ((exRows (run_rows t sv r1 is)).getD i []) c
        = rowFind? (r1.getD i []) c := by rw [run_rows_other t sv is r1 hii]
      _ = rowFind? (rows.getD i []) c := h1
  | error e =>
    have h1 := run_set_cell_preserved t cur rows i hcur i
    rw [hr] at h1
    exact h1

/-- One row's worth of the trace-cells argument, parametric in the induction
hypothesis for the remaining matched rows. -/
theorem run_trace_cells_aux (t : Table) (sv : List (String × Value))
    (is : List Nat)
    (IH : ∀ j js, is = j :: js → ∀ rows : List Row, j < rows.length →
      (∀ k ∈ js, k < rows.length) → j ∉ js → js.Pairwise (· < ·) →
      ∀ p ∈ upd_trace_go t sv j sv js,
        rowFind? ((exRows (run_from t sv rows j sv js)).getD p.1 []) p.2.1 =
          some p.2.2) :
    ∀ (cur : List (String × Value)) (rows : List Row) (i : Nat),
      (cur.map Prod.fst).Nodup → i < rows.length →
      (∀ j ∈ is, j < rows.length) → i ∉ is → is.Pairwise (· < ·) →
      ∀ p ∈ upd_trace_go t sv i cur is,
        rowFind? ((exRows (run_from t sv rows i cur is)).getD p.1 []) p.2.1 =
          some p.2.2 := by
  intro cur
  induction cur with
  | nil =>
    intro rows i hnd hlen hvalid hii hpw p hp
    cases his : is with
    | nil => rw [his] at hp; simp [upd_trace_go] at hp
    | cons j js =>
      subst his
      rw [show upd_trace_go t sv i [] (j :: js) = upd_trace_go t sv j sv js by
        simp [upd_trace_go]] at hp
      obtain ⟨hhead, htail⟩ := List.pairwise_cons.mp hpw
      have hjnotin : j ∉ js := fun hin => lt_irrefl j (hhead j hin)
      exact IH j js rfl rows (hvalid j (by simp))
        (fun k hk => hvalid k (by simp [hk])) hjnotin htail p hp
  | cons pcv rest ihcur =>
    intro rows i hnd hlen hvalid hii hpw p hp
    obtain ⟨c, v⟩ := pcv
    have hnd' : (rest.map Prod.fst).Nodup :=
      (List.nodup_cons.mp (by simpa using hnd)).2
    by_cases hc : c ∈ t.column_names
    · cases hcv : convert_value v (colTypeD t c) with
      | ok cv =>
        rw [show upd_trace_go t sv i ((c, v) :: rest) is =
            (i, c, cv) :: upd_trace_go t sv i rest is by
          simp [upd_trace_go, hc, hcv]] at hp
        rw [run_from_cons_ok t sv rows i rest is hc hcv]
        rcases List.mem_cons.mp hp with rfl | hp'
        · have hcnot : c ∉ rest.map Prod.fst :=
            (List.nodup_cons.mp (by simpa using hnd)).1
          have hrest : ∀ q ∈ rest, q.1 ≠ c ∨ q.1 ∉ t.column_names := by
            intro q hq
            left
            intro hqc
            exact hcnot (hqc ▸ List.mem_map_of_mem Prod.fst hq)
          rw [run_from_cell_at_i t sv _ i rest is hrest hii]
          rw [listModify_getD]
          rw [if_pos ⟨rfl, hlen⟩]
          exact alFind?_alSet_self_str _ c cv
        · exact ihcur (listModify rows i (fun r => alSet strEq r c cv)) i hnd'
            (by rw [listModify_length]; exact hlen)
            (fun j hj => by rw [listModify_length]; exact hvalid j hj)
            hii hpw p hp'
      | error e =>
        rw [show upd_trace_go t sv i ((c, v) :: rest) is = [] by
          simp [upd_trace_go, hc, hcv]] at hp
        simp at hp
    · rw [show upd_trace_go t sv i ((c, v) :: rest) is =
          upd_trace_go t sv i rest is by simp [upd_trace_go, hc]] at hp
      rw [run_from_cons_skip t sv rows i rest is hc]
      exact ihcur rows i hnd' hlen hvalid hii hpw p hp

/-- Every successfully converted assignment recorded in the trace of the
update loop remains visible in the final row storage, whether the loop
completed or failed partway. -/
theorem run_trace_cells (t : Table) (sv : List (String × Value))
    (hsv : (sv.map Prod.fst).Nodup) :
    ∀ is : List Nat, ∀ (rows : List Row) (i : Nat), i < rows.length →
      (∀ j ∈ is, j < rows.length) → i ∉ is → is.Pairwise (· < ·) →
      ∀ p ∈ upd_trace_go t sv i sv is,
        rowFind? ((exRows (run_from t sv rows i sv is)).getD p.1 []) p.2.1 =
          some p.2.2 := by
  intro is
  induction is with
  | nil =>
    intro rows i hlen hvalid hii hpw
    exact run_trace_cells_aux t sv [] (fun j js h => by cases h) sv rows i hsv
      hlen hvalid hii hpw
  | cons j js ihjs =>
    intro rows i hlen hvalid hii hpw
    refine run_trace_cells_aux t sv (j :: js) ?_ sv rows i hsv hlen hvalid hii hpw
    intro j' js' h rows' h1 h2 h3 h4
    injection h with h5 h6
    subst h5
    subst h6
    exact ihjs rows' j h1 h2 h3 h4

/-- C8: when an update's WHERE predicate matches at least one row and the
SET clause fails type conversion partway through (the loop returns a
conversion error), the call returns a failure result, yet the row storage
keeps every column assignment performed before the failing one: the final
storage is exactly the mutated storage at the failure point, and every entry
of the assignment trace is still visible in it — update is not atomic.
(`set_values` is a Python dict, hence the distinct-keys hypothesis.) -/
theorem c8_update_partial (t : Table) (sv : List (String × Value))
    (w : WhereClause) (hnd : (sv.map Prod.fst).Nodup)
    (hmatch : matched_idxs t.rows w ≠ []) (e : String × List Row)
    (herr : run_rows t sv t.rows (matched_idxs t.rows w) = .error e) :
    (t.update sv (some w)).2.success = false ∧
      (t.update sv (some w)).1.rows = e.2 ∧
      ∀ p ∈ upd_trace t sv (matched_idxs t.rows w),
        rowFind? ((t.update sv (some w)).1.rows.getD p.1 []) p.2.1 =
          some p.2.2 := by
  have hupd : t.update sv (some w) = ({ t with rows := e.2 }, failR e.1) := by
    unfold Table.update
    dsimp only
    rw [if_neg hmatch, herr]
  refine ⟨by rw [hupd]; rfl, by rw [hupd], ?_⟩
  intro p hp
  rw [hupd]
  show rowFind? (e.2.getD p.1 []) p.2.1 = some p.2.2
  cases hm : matched_idxs t.rows w with
  | nil => exact absurd hm hmatch
  | cons i is =>
    rw [hm] at hp herr
    have hpw := matched_idxs_pairwise t.rows w
    rw [hm] at hpw
    obtain ⟨hhead, htail⟩ := List.pairwise_cons.mp hpw
    have hlt := matched_idxs_lt t.rows w
    rw [hm] at hlt
    have hcells := run_trace_cells t sv hnd is t.rows i (hlt i (by simp))
      (fun j hj => hlt j (by simp [hj]))
      (fun hin => lt_irrefl i (hhead i hin)) htail p hp
    have hrf : run_from t sv t.rows i sv is = .error e := herr
    rw [hrf] at hcells
    exact hcells

/-- Witness for C8: on `twoT` the WHERE `b = 1` matches both rows; the SET
clause first assigns `b = 7` (applied to row 0), then fails converting
`'x'` for the INT column `a`; the call fails and row 0 keeps `b = 7`. -/
theorem c8_update_partial_witness :
    (twoT.update [("b", Value.int 7), ("a", Value.text "x")]
        (some ⟨"b", .int 1⟩)).2.success = false ∧
      (twoT.update [("b", Value.int 7), ("a", Value.text "x")]
          (some ⟨"b", .int 1⟩)).1.rows =
        ([[("a", Value.int 1), ("b", Value.int 7)],
          [("a", Value.int 2), ("b", Value.int 1)]] : List Row) ∧
      ∀ p ∈ upd_trace twoT [("b", Value.int 7), ("a", Value.text "x")]
          (matched_idxs twoT.rows ⟨"b", .int 1⟩),
        rowFind? ((twoT.update [("b", Value.int 7), ("a", Value.text "x")]
            (some ⟨"b", .int 1⟩)).1.rows.getD p.1 []) p.2.1 = some p.2.2 :=
  c8_update_partial twoT [("b", Value.int 7), ("a", Value.text "x")]
    ⟨"b", .int 1⟩ (by decide) (by decide)
    ("Type error: Cannot convert 'x' to INT",
      [[("a", Value.int 1), ("b", Value.int 7)],
        [("a", Value.int 2), ("b", Value.int 1)]])
    (by rfl)

/-! ## Claims C7 and C3: the executor's inner join -/

theorem filterMap_if_length {α β : Type} (l : List α) (p : α → Bool)
    (g : α → β) :
    (l.filterMap (fun x => if p x then some (g x) else none)).length =
      l.countP p := by
  induction l with
  | nil => rfl
  | cons a as ih =>
    by_cases hp : p a = true
    · simp [List.filterMap_cons, hp, List.countP_cons, ih]
    · simp [List.filterMap_cons, hp, List.countP_cons, ih]

/-- The nested-loop join produces exactly one merged row per ordered pair of
rows whose join-column values satisfy Python equality. -/
theorem build_join_rows_length (p : SelectJoinStmt) (lt rt : Table) :
    (build_join_rows p lt rt).length =
      match_count pyEq lt rt p.left_column p.right_column := by
  unfold build_join_rows match_count
  induction lt.rows with
  | nil => simp [List.product]
  | cons lr ls ih =>
    rw [show (lr :: ls).product rt.rows = rt.rows.map (lr, ·) ++ ls.product rt.rows
      by simp [List.product]]
    simp only [List.flatMap_cons, List.length_append, List.countP_append]
    rw [ih]
    congr 1
    rw [filterMap_if_length rt.rows
      (fun rr => pyEq (rowGetD lr p.left_column) (rowGetD rr p.right_column))
      (fun rr => merge_row p lt rt lr rr)]
    rw [List.countP_map]
    rfl

/-- C7 (amended): for existing tables with valid join columns and no WHERE
predicate, the join succeeds, its data has exactly one row per ordered pair
of rows whose join-column values are equal under the executor's value
equality (Python `==`, which equates an integer and a float of the same
numeric value); with no matching pair the data is empty; and the `*` output
columns are the left table's prefixed columns in declared order followed by
the right table's. -/
theorem c7_join_count (db : SimpleDB) (p : SelectJoinStmt) (lt rt : Table)
    (h1 : get_table db p.left_table = some lt)
    (h2 : get_table db p.right_table = some rt)
    (h3 : p.left_column ∈ lt.column_names)
    (h4 : p.right_column ∈ rt.column_names)
    (h5 : p.whereClause = none) (h6 : p.columns = ["*"]) :
    (handle_select_join db p).success = true ∧
      (handle_select_join db p).data.length =
        match_count pyEq lt rt p.left_column p.right_column ∧
      (match_count pyEq lt rt p.left_column p.right_column = 0 →
        (handle_select_join db p).data = []) ∧
      (handle_select_join db p).columns =
        lt.column_names.map (fun c => p.left_table ++ "." ++ c) ++
          rt.column_names.map (fun c => p.right_table ++ "." ++ c) := by
  have hres : handle_select_join db p =
      { success := true,
        message := "Selected " ++ toString (build_join_rows p lt rt).length ++
          " row(s) from JOIN",
        columns := lt.column_names.map (fun c => p.left_table ++ "." ++ c) ++
          rt.column_names.map (fun c => p.right_table ++ "." ++ c),
        data := (build_join_rows p lt rt).map (fun r =>
          (lt.column_names.map (fun c => p.left_table ++ "." ++ c) ++
            rt.column_names.map (fun c => p.right_table ++ "." ++ c)).map
              (fun c => rowFind? r c)) } := by
    unfold handle_select_join
    rw [h1, h2]
    dsimp only
    rw [if_neg (by simpa using h3), if_neg (by simpa using h4), h5, h6]
    simp only [if_pos]
  refine ⟨by rw [hres], ?_, ?_, by rw [hres]⟩
  · rw [hres]
    simpa using build_join_rows_length p lt rt
  · intro hz
    rw [hres]
    have := build_join_rows_length p lt rt
    rw [hz] at this
    simp only []
    rw [List.map_eq_nil_iff.mpr (List.length_eq_zero.mp this)]

/-- Witness for C7's amended theorem on the concrete one-row tables (the
float `1.0` joins the integer `1` under the executor's equality). -/
theorem c7_join_count_witness :
    (handle_select_join dbFI stmtFI).success = true ∧
      (handle_select_join dbFI stmtFI).data.length =
        match_count pyEq floatT intT stmtFI.left_column stmtFI.right_column ∧
      (match_count pyEq floatT intT stmtFI.left_column stmtFI.right_column = 0 →
        (handle_select_join dbFI stmtFI).data = []) ∧
      (handle_select_join dbFI stmtFI).columns =
        floatT.column_names.map (fun c => stmtFI.left_table ++ "." ++ c) ++
          intT.column_names.map (fun c => stmtFI.right_table ++ "." ++ c) :=
  c7_join_count dbFI stmtFI floatT intT (by rfl) (by rfl) (by decide)
    (by decide) rfl rfl

/-- C7 (counterexample): the claim's "type-sensitive equality" (under which
the integer 1 and the float 1.0 are distinct values, spec section 3) does
not describe the code — joining a FLOAT column holding `1.0` with an INT
column holding `1` yields one row, although no pair of join-column values is
equal under type-sensitive (structural) value equality. -/
theorem c7_counterexample :
    (handle_select_join dbFI stmtFI).success = true ∧
      (handle_select_join dbFI stmtFI).data.length = 1 ∧
      match_count (fun a b => decide (a = b)) floatT intT "a" "b" = 0 ∧
      (handle_select_join dbFI stmtFI).data.length ≠
        match_count (fun a b => decide (a = b)) floatT intT "a" "b" :=
  ⟨by rfl, by rfl, by rfl, by decide⟩

/-- C3 (counterexample): for the pipeline query `SELECT * FROM users JOIN
orders ON users.id = orders.uid WHERE users.id = 1`, the WHERE clause text
names a prefixed merged-row key, but `_parse_where` cannot parse a dotted
column (`\w+` stops at the dot), so the parsed predicate is `None` and the
executor performs no filtering: both merged rows are returned, although only
one of them has `users.id = 1`. -/
theorem c3_counterexample :
    parse_where "users.id = 1" = none ∧
      stmtUO.whereClause = none ∧
      (handle_select_join dbUO stmtUO).data.length = 2 ∧
      ((build_join_rows stmtUO joinUsers joinOrders).filter
          (fun r => rowMatches r ⟨"users.id", .int 1⟩)).length = 1 :=
  ⟨by rfl, by rfl, by rfl, by rfl⟩

/-- C3 (amended): the executor's join does build all matched combined rows
first and then, when it receives a parsed WHERE predicate, keeps exactly the
combined rows whose value at the predicate's column equals the predicate's
value (compared against the prefixed merged-row keys).  However, the WHERE
grammar `(\w+)\s*=\s*(.+)` only produces word-character column names, so a
predicate written on a prefixed key `<table>.<column>` never parses (the dot
is not a word character); such a query reaches the executor with no
predicate and is not filtered at all. -/
theorem c3_join_where_filter (db : SimpleDB) (p : SelectJoinStmt)
    (lt rt : Table) (w : WhereClause)
    (h1 : get_table db p.left_table = some lt)
    (h2 : get_table db p.right_table = some rt)
    (h3 : p.left_column ∈ lt.column_names)
    (h4 : p.right_column ∈ rt.column_names)
    (h5 : p.whereClause = some w) :
    (handle_select_join db p).data =
        ((build_join_rows p lt rt).filter (fun r => rowMatches r w)).map
          (fun r =>
            (if p.columns = ["*"] then
              lt.column_names.map (fun c => p.left_table ++ "." ++ c) ++
                rt.column_names.map (fun c => p.right_table ++ "." ++ c)
            else p.columns).map (fun c => rowFind? r c)) ∧
      (∀ s wc, parse_where s = some wc →
        ∀ ch ∈ wc.column.toList, isWordChar ch = true) ∧
      isWordChar '.' = false := by
  refine ⟨?_, ?_, by decide⟩
  · unfold handle_select_join
    rw [h1, h2]
    dsimp only
    rw [if_neg (by simpa using h3), if_neg (by simpa using h4), h5]
  · intro s wc hp ch hch
    unfold parse_where at hp
    dsimp only at hp
    split at hp
    · cases hp
    · split at hp
      · split at hp
        · cases hp
        · injection hp with hp
          rw [← hp] at hch
          exact List.mem_takeWhile_imp hch
      · cases hp

/-- Witness for C3's amended theorem: the executor handed a predicate on
the prefixed key `users.id` directly (bypassing the parser) does filter the
merged rows by it. -/
theorem c3_join_where_filter_witness :
    (handle_select_join dbUO
        ⟨["*"], "users", "orders", "id", "uid", some ⟨"users.id", .int 1⟩⟩).data =
        ((build_join_rows
            ⟨["*"], "users", "orders", "id", "uid", some ⟨"users.id", .int 1⟩⟩
            joinUsers joinOrders).filter
          (fun r => rowMatches r ⟨"users.id", .int 1⟩)).map
          (fun r =>
            (if (⟨["*"], "users", "orders", "id", "uid",
                some ⟨"users.id", .int 1⟩⟩ : SelectJoinStmt).columns = ["*"] then
              joinUsers.column_names.map (fun c => "users" ++ "." ++ c) ++
                joinOrders.column_names.map (fun c => "orders" ++ "." ++ c)
            else (⟨["*"], "users", "orders", "id", "uid",
                some ⟨"users.id", .int 1⟩⟩ : SelectJoinStmt).columns).map
              (fun c => rowFind? r c)) ∧
      (∀ s wc, parse_where s = some wc →
        ∀ ch ∈ wc.column.toList, isWordChar ch = true) ∧
      isWordChar '.' = false :=
  c3_join_where_filter dbUO
    ⟨["*"], "users", "orders", "id", "uid", some ⟨"users.id", .int 1⟩⟩
    joinUsers joinOrders ⟨"users.id", .int 1⟩ (by rfl) (by rfl) (by decide)
    (by decide) rfl

/-! ## Claim C1: the index invariant -/

theorem pyEq_iff_key (a b : Value) : pyEq a b = true ↔ pyKey a = pyKey b := by
  rcases a with n | (q | ab) | s <;> rcases b with m | (r | bb) | t <;>
    simp [pyEq, pyKey]

/-- `alFind?` over a `pyEq`-keyed index cannot distinguish `pyEq`-equal
query keys. -/
theorem alFind?_pyEq_congr {a b : Value} (idx : Index) (h : pyEq a b = true) :
    alFind? pyEq idx a = alFind? pyEq idx b := by
  induction idx with
  | nil => rfl
  | cons p es ih =>
    obtain ⟨k, v⟩ := p
    have hk : pyEq k a = pyEq k b := by
      rw [Bool.eq_iff_iff, pyEq_iff_key, pyEq_iff_key,
        (pyEq_iff_key a b).mp h]
    simp only [alFind?, hk]
    split
    · rfl
    · exact ih

/-- Under a correct index, the column's values are pairwise `pyEq`-distinct
across the rows. -/
theorem distinct_of_index_correct {idx : Index} {rows : List Row}
    {col : String} (hic : index_correct idx rows col) :
    rows.Pairwise (fun r s => pyEq (rowGetD r col) (rowGetD s col) = false) := by
  rw [List.pairwise_iff_get]
  intro i j hij
  by_contra hne
  have heq : pyEq (rowGetD (rows.get i) col) (rowGetD (rows.get j) col) = true := by
    simpa using hne
  have h1 := hic.2 i (rows.get i) (List.get?_eq_get i.isLt)
  have h2 := hic.2 j (rows.get j) (List.get?_eq_get j.isLt)
  rw [alFind?_pyEq_congr idx heq, h2] at h1
  have : (j : Nat) = (i : Nat) := by simpa using h1
  omega

/-- Appending a row whose column value is absent from a correct index, and
extending the index with the new mapping, keeps the index correct. -/
theorem index_correct_extend {idx : Index} {rows : List Row} {col : String}
    (row : Row) (hic : index_correct idx rows col)
    (hnone : alFind? pyEq idx (rowGetD row col) = none) :
    index_correct (alSet pyEq idx (rowGetD row col) rows.length)
      (rows ++ [row]) col := by
  rw [alFind?_alSet_none hnone]
  constructor
  · simp [hic.1]
  · intro i r hr
    rcases Nat.lt_trichotomy i rows.length with hi | hi | hi
    · rw [List.get?_append hi] at hr
      exact alFind?_append_left (hic.2 i r hr) _
    · subst hi
      rw [List.get?_concat_length] at hr
      injection hr with hr
      subst hr
      rw [alFind?_append_none hnone]
      simp [alFind?, pyEq_refl]
    · rw [List.get?_eq_none.mpr (by simp; omega)] at hr
      cases hr

theorem insert_unique_update_notmem (uniqs : List String)
    (uis : List (String × Index)) (row : Row) (n : Nat) {k : String}
    (hk : k ∉ uniqs) :
    alFind? strEq (insert_unique_update uniqs uis row n) k =
      alFind? strEq uis k := by
  induction uniqs generalizing uis with
  | nil => rfl
  | cons c cs ih =>
    have hkc : k ≠ c := fun hh => hk (by simp [hh])
    have hstep : insert_unique_update (c :: cs) uis row n =
        insert_unique_update cs (match alFind? strEq uis c with
          | some m => alSet strEq uis c (alSet pyEq m (rowGetD row c) n)
          | none => uis) row n := rfl
    rw [hstep, ih _ (fun hh => hk (by simp [hh]))]
    cases alFind? strEq uis c with
    | some m => exact alFind?_alSet_ne_str _ hkc _
    | none => rfl

theorem insert_unique_update_mem (uniqs : List String) (hnd : uniqs.Nodup)
    (uis : List (String × Index)) (row : Row) (n : Nat) {u : String} {m : Index}
    (hu : u ∈ uniqs) (hm : alFind? strEq uis u = some m) :
    alFind? strEq (insert_unique_update uniqs uis row n) u =
      some (alSet pyEq m (rowGetD row u) n) := by
  induction uniqs generalizing uis with
  | nil => cases hu
  | cons c cs ih =>
    have hstep : insert_unique_update (c :: cs) uis row n =
        insert_unique_update cs (match alFind? strEq uis c with
          | some m => alSet strEq uis c (alSet pyEq m (rowGetD row c) n)
          | none => uis) row n := rfl
    rw [hstep]
    rcases List.mem_cons.mp hu with rfl | hu'
    · have hcs : u ∉ cs := (List.nodup_cons.mp hnd).1
      rw [insert_unique_update_notmem cs _ row n hcs]
      rw [hm]
      exact alFind?_alSet_self_str _ u _
    · have hnd' := (List.nodup_cons.mp hnd).2
      have hne : u ≠ c := fun hh => (List.nodup_cons.mp hnd).1 (hh ▸ hu')
      cases hc : alFind? strEq uis c with
      | some mc =>
        refine ih hnd' _ hu' ?_
        rw [alFind?_alSet_ne_str _ hne]
        exact hm
      | none => exact ih hnd' _ hu' hm

/-- `Table.insert` preserves the index invariant. -/
theorem insert_preserves_inv (t : Table) (vs : List Value)
    (hnd : t.unique_columns.Nodup) (hinv : table_inv t) :
    table_inv (t.insert vs).1 := by
  rcases insert_state_or_success t vs with hs | hs
  · rw [hs]; exact hinv
  · obtain ⟨row, hbr, hnone, huv, hrows, hpi, hui⟩ := insert_success_spec t vs hs
    obtain ⟨-, -, -, hpk, huc, -⟩ := insert_static t vs
    constructor
    · rw [hpk, hrows, hpi]
      exact index_correct_extend row hinv.1 hnone
    · intro u hu
      rw [huc] at hu
      obtain ⟨m, hm, hic⟩ := hinv.2 u hu
      have hfu : (match alFind? strEq t.unique_indexes u with
          | some m =>
            if alContains pyEq m (rowGetD row u) then some (u, rowGetD row u)
            else none
          | none => none) = (none : Option (String × Value)) := by
        unfold find_unique_violation at huv
        exact List.findSome?_eq_none.mp huv u hu
      rw [hm] at hfu
      dsimp only at hfu
      have hcontains : alContains pyEq m (rowGetD row u) = false := by
        by_contra hcc
        rw [if_pos (by simpa using hcc)] at hfu
        cases hfu
      have hnone_u : alFind? pyEq m (rowGetD row u) = none := by
        rw [alContains] at hcontains
        cases hfind : alFind? pyEq m (rowGetD row u)
        · rfl
        · rw [hfind] at hcontains; cases hcontains
      refine ⟨alSet pyEq m (rowGetD row u) t.rows.length, ?_, ?_⟩
      · rw [hui]
        exact insert_unique_update_mem t.unique_columns hnd t.unique_indexes
          row t.rows.length hu hm
      · rw [hrows]
        exact index_correct_extend row hic hnone_u

/-- The static fields of a table are unchanged by `Table.delete`. -/
theorem delete_static (t : Table) (w : Option WhereClause) :
    (t.delete w).1.columns = t.columns ∧
      (t.delete w).1.column_names = t.column_names ∧
      (t.delete w).1.column_types = t.column_types ∧
      (t.delete w).1.primary_key = t.primary_key ∧
      (t.delete w).1.unique_columns = t.unique_columns ∧
      (t.delete w).1.name = t.name := by
  unfold Table.delete
  cases w with
  | none => exact ⟨rfl, rfl, rfl, rfl, rfl, rfl⟩
  | some wc =>
    dsimp only
    split
    · exact ⟨rfl, rfl, rfl, rfl, rfl, rfl⟩
    · exact ⟨rfl, rfl, rfl, rfl, rfl, rfl⟩

theorem popOne_sublist (t : Table) (st : PopSt) (i : Nat) :
    (popOne t st i).rows.Sublist st.rows := by
  unfold popOne
  cases st.rows.get? i with
  | none => exact List.Sublist.refl _
  | some row => exact List.eraseIdx_sublist _ _

theorem popLoop_sublist (t : Table) (idxs : List Nat) (st : PopSt) :
    (idxs.foldl (popOne t) st).rows.Sublist st.rows := by
  induction idxs generalizing st with
  | nil => exact List.Sublist.refl _
  | cons i is ih => exact (ih (popOne t st i)).trans (popOne_sublist t st i)

theorem build_fold_eq (col : String) : ∀ (rows : List Row) (k : Nat) (acc : Index),
    (∀ r ∈ rows, alFind? pyEq acc (rowGetD r col) = none) →
    rows.Pairwise (fun r s => pyEq (rowGetD r col) (rowGetD s col) = false) →
    (rows.enumFrom k).foldl (fun ix p => alSet pyEq ix (rowGetD p.2 col) p.1) acc =
      acc ++ (rows.enumFrom k).map (fun p => (rowGetD p.2 col, p.1)) := by
  intro rows
  induction rows with
  | nil => intro k acc _ _; simp
  | cons r rs ih =>
    intro k acc hfresh hpw
    rw [List.enumFrom_cons]
    simp only [List.foldl_cons, List.map_cons]
    rw [alFind?_alSet_none (hfresh r (by simp))]
    rw [ih (k + 1) (acc ++ [(rowGetD r col, k)]) ?fresh ?pw]
    · simp
    case fresh =>
      intro s hs
      rw [alFind?_append_none (hfresh s (by simp [hs]))]
      have hne : pyEq (rowGetD r col) (rowGetD s col) = false :=
        (List.pairwise_cons.mp hpw).1 s hs
      simp [alFind?, hne]
    case pw => exact (List.pairwise_cons.mp hpw).2

theorem map_index_lookup (col : String) : ∀ (rows : List Row) (k : Nat),
    rows.Pairwise (fun r s => pyEq (rowGetD r col) (rowGetD s col) = false) →
    ∀ (i : Nat) (r : Row), rows.get? i = some r →
      alFind? pyEq ((rows.enumFrom k).map (fun p => (rowGetD p.2 col, p.1)))
        (rowGetD r col) = some (k + i) := by
  intro rows
  induction rows with
  | nil => intro k _ i r h; cases h
  | cons r0 rs ih =>
    intro k hpw i r hr
    rw [List.enumFrom_cons]
    simp only [List.map_cons, alFind?]
    cases i with
    | zero =>
      injection hr with hr
      subst hr
      rw [if_pos (pyEq_refl _)]
      simp
    | succ j =>
      simp only [List.get?_cons_succ] at hr
      have hmem : r ∈ rs := List.get?_mem hr
      have hne : pyEq (rowGetD r0 col) (rowGetD r col) = false :=
        (List.pairwise_cons.mp hpw).1 r hmem
      rw [if_neg (by simp [hne])]
      rw [ih (k + 1) (List.pairwise_cons.mp hpw).2 j r hr]
      congr 1
      omega

/-- `_rebuild_indexes`'s scan builds a correct index from any row list whose
values in the column are pairwise distinct under Python equality. -/
theorem build_index_correct (rows : List Row) (col : String)
    (hpw : rows.Pairwise (fun r s => pyEq (rowGetD r col) (rowGetD s col) = false)) :
    index_correct (build_index rows col) rows col := by
  unfold build_index
  rw [show rows.enum = rows.enumFrom 0 from rfl]
  rw [build_fold_eq col rows 0 [] (fun r _ => rfl) hpw]
  constructor
  · simp
  · intro i r hr
    simpa using map_index_lookup col rows 0 hpw i r hr

theorem alFind?_map_key {g : String → Index} (uniqs : List String) {u : String}
    (hu : u ∈ uniqs) :
    alFind? strEq (uniqs.map (fun c => (c, g c))) u = some (g u) := by
  induction uniqs with
  | nil => cases hu
  | cons c cs ih =>
    simp only [List.map_cons, alFind?]
    by_cases hc : strEq c u = true
    · have hcu : c = u := by simpa [strEq] using hc
      rw [if_pos hc, hcu]
    · rw [if_neg hc]
      have hne : u ≠ c := fun hh => hc (by simp [strEq, hh])
      exact ih (by
        rcases List.mem_cons.mp hu with rfl | h
        · exact absurd rfl hne
        · exact h)

/-- `Table.delete` preserves the index invariant: whatever the intermediate
per-pop index deletions left behind, the unconditional rebuild restores
exactness, because the surviving rows are a sublist of the old ones and thus
keep their values pairwise distinct. -/
theorem delete_preserves_inv (t : Table) (w : Option WhereClause)
    (hinv : table_inv t) : table_inv (t.delete w).1 := by
  unfold Table.delete
  cases w with
  | none => exact hinv
  | some wc =>
    dsimp only
    by_cases he : matched_idxs t.rows wc = []
    · simp only [he, if_pos]
      exact hinv
    · simp only [he, if_neg, not_false_iff]
      have hsub : ((matched_idxs t.rows wc).reverse.foldl (popOne t)
          ⟨t.rows, t.primary_index, t.unique_indexes⟩).rows.Sublist t.rows :=
        popLoop_sublist t _ _
      constructor
      · exact build_index_correct _ _
          (List.Pairwise.sublist hsub (distinct_of_index_correct hinv.1))
      · intro u hu
        obtain ⟨m, hm, hic⟩ := hinv.2 u hu
        exact ⟨build_index _ u, alFind?_map_key t.unique_columns hu,
          build_index_correct _ _
            (List.Pairwise.sublist hsub (distinct_of_index_correct hic))⟩

/-- A freshly created table satisfies the index invariant. -/
theorem mkTable_inv (name : String) (columns : List (String × String))
    (pk : String) (uniq : List String) :
    table_inv (mkTable name columns pk uniq) := by
  constructor
  · exact ⟨rfl, fun i r h => by cases h⟩
  · intro u hu
    exact ⟨[], alFind?_map_key uniq.dedup hu, rfl, fun i r h => by cases h⟩

/-- C1: for every table created empty at CREATE TABLE time and every
sequence of insert and delete operations, the primary index contains exactly
one entry per stored row, mapping each row's primary-key value to the row's
current position, and each unique column's index likewise — no stale and no
missing entries. -/
theorem c1_index_invariant (name : String) (columns : List (String × String))
    (pk : String) (uniq : List String) (ops : List TableOp) :
    table_inv (applyOps (mkTable name columns pk uniq) ops) := by
  suffices h : ∀ (ops : List TableOp) (t : Table), t.unique_columns.Nodup →
      table_inv t → table_inv (applyOps t ops) by
    exact h ops _ (List.nodup_dedup _) (mkTable_inv name columns pk uniq)
  intro ops
  induction ops with
  | nil => intro t _ hinv; exact hinv
  | cons op rest ih =>
    intro t hnd hinv
    show table_inv (applyOps (applyOp t op) rest)
    cases op with
    | ins vs =>
      exact ih _ (by
          show (t.insert vs).1.unique_columns.Nodup
          rw [(insert_static t vs).2.2.2.2.1]; exact hnd)
        (insert_preserves_inv t vs hnd hinv)
    | del w =>
      exact ih _ (by
          show (t.delete w).1.unique_columns.Nodup
          rw [(delete_static t w).2.2.2.2.1]; exact hnd)
        (delete_preserves_inv t w hinv)
